import Mathlib

/-!
Verification of the `remult-opt` optimized data provider
(`src/unnamed/part_000`, `src/projects/core/src/mssql-safe-knex-provider.ts`).

The development shallowly embeds the query-compilation layer: strings are
modeled as `List Char` (named `Str`) so that every operation is a structural
recursion the kernel can evaluate; JavaScript `null`/`undefined` cell values
are modeled as `Option Str` with `none` for both, matching the source's
uniform `!== null && !== undefined` tests; asynchronous control flow is
modeled by explicit result values (`Except`) plus event traces.
-/

namespace RemultOpt

/-- Character strings, modeled as lists of characters so that all operations
below are structural recursions. -/
abbrev Str := List Char

/-- Boolean prefix test on character lists (JS `startsWith`). -/
def isPrefixOfL : Str → Str → Bool
  | [], _ => true
  | _ :: _, [] => false
  | a :: as, b :: bs => a = b && isPrefixOfL as bs

/-- Does some suffix of the string satisfy the predicate?  Used to express
substring search. -/
def anySuffix (p : Str → Bool) : Str → Bool
  | [] => p []
  | c :: rest => p (c :: rest) || anySuffix p rest

/-- JS `includes`: substring containment. -/
def containsSub (sub s : Str) : Bool := anySuffix (fun t => isPrefixOfL sub t) s

/-- JS `String.prototype.split(sep)` semantics for a one-character separator:
`"a.b".split "." = ["a","b"]`, `".".split "." = ["",""]`. -/
def splitOnChar (sep : Char) : Str → List Str
  | [] => [[]]
  | c :: rest =>
    let r := splitOnChar sep rest
    if c = sep then [] :: r
    else
      match r with
      | [] => [[c]]
      | h :: t => (c :: h) :: t

/-- JS `Array.prototype.join(sep)` for string arrays. -/
def joinWith (sep : Str) : List Str → Str
  | [] => []
  | [s] => s
  | s :: t :: rest => s ++ sep ++ joinWith sep (t :: rest)

/-- Lower-casing a string (models the `/i` regex flag). -/
def toLowerL (s : Str) : Str := s.map Char.toLower

/-- Whitespace classifier, as in the regex class `\s`. -/
def isWs (c : Char) : Bool := c = ' ' || c = '\t' || c = '\n' || c = '\r'

/-- Collapse every run of whitespace to one space (models matching a fixed
phrase with `\s+` between words after normalization). -/
def normSpace : Str → Str
  | [] => []
  | c :: rest =>
    let r := normSpace rest
    if isWs c then
      match r with
      | [] => []
      | ' ' :: _ => r
      | _ => ' ' :: r
    else c :: r

/-- Fuel-driven replace-all of a non-empty pattern (JS `replace` with a `g`
regex over a literal pattern).  Fuel `s.length` always suffices because each
step consumes at least one character. -/
def replaceSubFuel (pat rep : Str) : Nat → Str → Str
  | 0, s => s
  | _, [] => []
  | fuel + 1, c :: rest =>
    if pat ≠ [] && isPrefixOfL pat (c :: rest) then
      rep ++ replaceSubFuel pat rep fuel (List.drop pat.length (c :: rest))
    else c :: replaceSubFuel pat rep fuel rest

/-- Replace all occurrences of `pat` by `rep`. -/
def replaceSub (pat rep s : Str) : Str := replaceSubFuel pat rep s.length s

/-- Regex word character `\w` (underscore included). -/
def isWordChar (c : Char) : Bool := c.isAlphanum || c = '_'

/-- Number of (possibly overlapping) occurrences of `sub`. -/
def countSub (sub : Str) : Str → Nat
  | [] => 0
  | c :: rest => (if isPrefixOfL sub (c :: rest) then 1 else 0) + countSub sub rest

/-! ### C7: filter translation, OR / NOT over unconstrained branches

`FilterToKnexBridge.or` / `.not` (src/unnamed/part_000 lines 2073-2123).
A translated filter is modeled as the list of predicate closures the bridge
pushes into its `result` array; the empty list means "no restriction".
Predicates are modeled semantically, as Boolean functions on an abstract row
type. -/

/-- Conjunction of a translated branch's predicates, as applied by
`where.forEach((x) => x(b))` inside one `orWhere`/`whereNot` group. -/
def branchPred {α : Type} (ps : List (α → Bool)) (r : α) : Bool :=
  ps.all (fun p => p r)

/-- Loop body of `FilterToKnexBridge.or` (lines 2073-2100): each branch is
translated independently; a branch translating to zero predicates aborts the
whole loop without pushing anything (`else return; // empty or means all
rows`); otherwise the accumulated branches are pushed as one OR predicate. -/
def orTranslateGo {α : Type} : List (List (α → Bool)) → List (α → Bool) → List (α → Bool)
  | [], acc => if acc.isEmpty then [] else [fun r => acc.any (fun p => p r)]
  | b :: rest, acc =>
    if b.isEmpty then [] else orTranslateGo rest (acc ++ [branchPred b])

/-- `FilterToKnexBridge.or`: the list of predicates contributed by an OR node
whose branches translated to the given predicate lists. -/
def orTranslate {α : Type} (branches : List (List (α → Bool))) : List (α → Bool) :=
  orTranslateGo branches []

/-- `FilterToKnexBridge.not` (lines 2102-2123): if the inner translation
yields zero predicates nothing is pushed, otherwise one `whereNot` group. -/
def notTranslate {α : Type} (inner : List (α → Bool)) : List (α → Bool) :=
  if inner.isEmpty then [] else [fun r => ! branchPred inner r]

/-- A list of pushed predicates restricts a row set by conjunction; the empty
list keeps every row. -/
def applyPreds {α : Type} (ps : List (α → Bool)) (r : α) : Bool :=
  ps.all (fun p => p r)

/-! ### C4: single join-to-base fallback for find and count

Control flow of `OptimizedEntityDataProvider.find` (lines 681-782) and
`.count` (lines 1505-1542).  The outcome of the join-based statement and of
the base (non-join) provider are inputs; the model records the calls made. -/

/-- Observable calls made by a find/count invocation. -/
inductive ProviderEvent where
  | joinFind
  | baseFind
  | joinCount
  | baseCount
  | cleanRefs
  | restoreRefs
deriving DecidableEq, Repr

/-- Control flow of `find` (lines 681-782): a virtual (sqlExpression) root
entity or a join-reference-only entity delegates once to the base provider
inside a clean/restore bracket; with relations to join, the join statement is
attempted and on any error the request is delegated exactly once to the base
provider (clean/restore around it), whose own failure propagates. -/
def findFlow {E A : Type} (entityHasSqlExpression hasRelationsToJoin hasJoinReferences : Bool)
    (joinRes baseRes : Except E A) : Except E A × List ProviderEvent :=
  if entityHasSqlExpression then
    (baseRes, [.cleanRefs, .baseFind, .restoreRefs])
  else if !hasRelationsToJoin then
    if hasJoinReferences then (baseRes, [.cleanRefs, .baseFind, .restoreRefs])
    else (baseRes, [.baseFind])
  else
    match joinRes with
    | .ok r => (.ok r, [.joinFind])
    | .error _ => (baseRes, [.joinFind, .cleanRefs, .baseFind, .restoreRefs])

/-- Control flow of `count` (lines 1505-1542): same single-fallback shape; the
catch branch delegates directly to `baseEntityProvider.count` (no expression
rewriting) and its failure propagates. -/
def countFlow {E A : Type} (entityHasSqlExpression hasRelationsToJoin : Bool)
    (joinRes baseRes : Except E A) : Except E A × List ProviderEvent :=
  if entityHasSqlExpression then (baseRes, [.baseCount])
  else if !hasRelationsToJoin then (baseRes, [.baseCount])
  else
    match joinRes with
    | .ok r => (.ok r, [.joinCount])
    | .error _ => (baseRes, [.joinCount, .baseCount])

/-! ### C5: transient degradation of shared sqlExpression metadata

`cleanJoinReferences` (lines 160-246), `restoreOriginalSqlExpressions`
(lines 667-679) and the try/finally brackets in `find`/`update`/`delete`/
`insert` (lines 686-694, 744-752, 774-780, 1544-1569).  A field's
`options.sqlExpression` slot holds either its original definition (a string
or a thunk, represented by its evaluated text) or the join-free rewritten
closure installed by `cleanJoinReferences`. -/

/-- Contents of a field's `sqlExpression` option slot. -/
inductive SqlExpressionDef where
  | defn (text : Str)
  | degradedToSubquery (original : SqlExpressionDef)
deriving DecidableEq, Repr

/-- The evaluated expression text of a definition. -/
def SqlExpressionDef.evalText : SqlExpressionDef → Str
  | .defn t => t
  | .degradedToSubquery o => o.evalText

/-- One entry of the shared entity field metadata, restricted to the parts
`cleanJoinReferences` reads and writes. -/
structure EntityFieldState where
  key : Str
  sqlExpression : Option SqlExpressionDef
deriving DecidableEq, Repr

/-- Does the expression text contain a `join_<path>.<field>` alias reference
(regex `/join_[\w_]+\./i`) starting at the current position? -/
def joinAliasRefAt (s : Str) : Bool :=
  isPrefixOfL ("join_".data) (toLowerL s) && wordsThenDot (s.drop 5)
where
  wordsThenDot : Str → Bool
    | [] => false
    | c :: rest => isWordChar c && contDot rest
  contDot : Str → Bool
    | [] => false
    | c :: rest => c = '.' || (isWordChar c && contDot rest)

/-- Whole-string test for `/join_[\w_]+\./i`. -/
def containsJoinAliasRef (s : Str) : Bool := anySuffix joinAliasRefAt s

/-- The three rewrite conditions of `cleanJoinReferences` (lines 179-240):
the evaluated expression contains `@JOIN:`, or a `join_…` alias reference,
or an unaliased reference to the entity's table name or key. -/
def shouldRewriteExpression (tableName entityKey sqlExpr : Str) : Bool :=
  containsSub ("@JOIN:".data) sqlExpr
  || containsJoinAliasRef sqlExpr
  || containsSub (tableName ++ (".".data)) sqlExpr
  || containsSub (entityKey ++ (".".data)) sqlExpr

/-- `cleanJoinReferences` (lines 160-246): walk the entity's fields in order;
every field whose expression must be rewritten has its original definition
saved in the returned map and its slot overwritten with the degraded
closure.  Returns the updated field list and the saved originals. -/
def cleanJoinReferences (tableName entityKey : Str) :
    List EntityFieldState → List EntityFieldState × List (Str × SqlExpressionDef)
  | [] => ([], [])
  | f :: rest =>
    let r := cleanJoinReferences tableName entityKey rest
    match f.sqlExpression with
    | some d =>
      if shouldRewriteExpression tableName entityKey d.evalText then
        (⟨f.key, some (.degradedToSubquery d)⟩ :: r.1, (f.key, d) :: r.2)
      else (f :: r.1, r.2)
    | none => (f :: r.1, r.2)

/-- Point update of one field's `sqlExpression` slot (lines 670-678: find the
field by key, assign the saved original; keys not present are ignored). -/
def setFieldSqlExpression (fields : List EntityFieldState) (k : Str)
    (v : SqlExpressionDef) : List EntityFieldState :=
  fields.map (fun f => if f.key = k then ⟨f.key, some v⟩ else f)

/-- `restoreOriginalSqlExpressions` (lines 667-679). -/
def restoreOriginalSqlExpressions (fields : List EntityFieldState) :
    List (Str × SqlExpressionDef) → List EntityFieldState
  | [] => fields
  | (k, d) :: rest =>
    restoreOriginalSqlExpressions (setFieldSqlExpression fields k d) rest

/-- The common try/finally bracket of the degraded `find` path (lines
774-780) and of `update`/`delete`/`insert` (lines 1544-1569): rewrite, run the
delegated call (which may fail), always restore.  Returns the delegate's
outcome and the final state of the shared metadata. -/
def withTransientDegradation {E A : Type} (tableName entityKey : Str)
    (fields : List EntityFieldState) (delegate : Except E A) :
    Except E A × List EntityFieldState :=
  let c := cleanJoinReferences tableName entityKey fields
  (delegate, restoreOriginalSqlExpressions c.1 c.2)

/-! ### C1: result assembly, `mapJoinedResults`

`mapJoinedResults` (lines 1376-1496) maps each flat aliased row onto a nested
object.  Rows are association lists from column key to a nullable primitive
(`none` models both SQL `NULL` and an absent JS property, exactly the
source's `!== null && !== undefined` test).  Value conversion
(`valueConverter.fromDb`) is modeled as the identity, and entities without
`serverExpression` fields are modeled, so the post-processing loop at lines
1473-1492 is a no-op; both restrictions are orthogonal to the null-relation
grouping logic this section verifies. -/

/-- Assembled JS values: `vnull` is the explicit JS `null`, `prim` a non-null
primitive, `vobj` a nested object (association list in property order). -/
inductive JVal where
  | vnull
  | prim (v : Str)
  | vobj (fields : List (Str × JVal))
deriving Repr

/-- Nullable row cell to JS value. -/
def cellToJVal : Option Str → JVal
  | none => .vnull
  | some s => .prim s

/-- JS property read. -/
def getKey (o : List (Str × JVal)) (k : Str) : Option JVal := o.lookup k

/-- JS property write: overwrite in place, or append a new property. -/
def setKey (o : List (Str × JVal)) (k : Str) (v : JVal) : List (Str × JVal) :=
  if o.any (fun p => p.1 = k) then
    o.map (fun p => if p.1 = k then (k, v) else p)
  else o ++ [(k, v)]

/-- JS truthiness test on a property read (`!target[parts[i]]`): absent,
`null` and the empty string are falsy; objects are truthy.  Primitives are
modeled as strings, so `""` is the falsy primitive. -/
def jsFalsy : Option JVal → Bool
  | none => true
  | some .vnull => true
  | some (.prim s) => s.isEmpty
  | some (.vobj _) => false

/-- The nested-assignment loop of `mapJoinedResults` (lines 1456-1466):
navigate the dot-path, creating `{}` at falsy intermediate slots, and assign
the value at the last segment.  Descending into a truthy primitive would
throw a `TypeError` when the write happens (strict mode), modeled as
`none`. -/
def assignPath (o : List (Str × JVal)) : List Str → JVal → Option (List (Str × JVal))
  | [], _ => none
  | [k], v => some (setKey o k v)
  | k :: k2 :: rest, v =>
    let cur := getKey o k
    if jsFalsy cur then
      (assignPath [] (k2 :: rest) v).map (fun inner => setKey o k (.vobj inner))
    else
      match cur with
      | some (.vobj innerObj) =>
        (assignPath innerObj (k2 :: rest) v).map (fun inner => setKey o k (.vobj inner))
      | _ => none

/-- One entry of `validJoins` as consumed by `mapJoinedResults`. -/
structure JoinInfo where
  fieldKey : Str
  joinAlias : Str
deriving DecidableEq, Repr

/-- A flat result row. -/
abbrev ResultRow := List (Str × Option Str)

/-- Per-join processing (lines 1412-1471): collect the columns carrying the
join's alias prefix into a candidate related object, record whether any of
them is non-null, then write `relatedObject` or `null` either at the plain
field key or, for a nested join (field key containing an underscore), at the
underscore-split nested path. -/
def applyJoin (o : List (Str × JVal)) (row : ResultRow) (j : JoinInfo) :
    Option (List (Str × JVal)) :=
  let pre := j.joinAlias ++ ("__".data)
  let relPairs := row.filterMap (fun p =>
    if isPrefixOfL pre p.1 then some (p.1.drop pre.length, p.2) else none)
  let relatedObject := relPairs.foldl (fun ro p => setKey ro p.1 (cellToJVal p.2)) []
  let hasData := relPairs.any (fun p => p.2.isSome)
  let value := if hasData then JVal.vobj relatedObject else JVal.vnull
  if containsSub ("_".data) j.fieldKey then
    assignPath o (splitOnChar '_' j.fieldKey) value
  else
    some (setKey o j.fieldKey value)

/-- `mapJoinedResults` restricted to one row (lines 1388-1494): read the
un-prefixed columns into the root object, then process every join in plan
order. -/
def mapJoinedResultsRow (row : ResultRow) (validJoins : List JoinInfo) :
    Option (List (Str × JVal)) :=
  let mainEntity := row.foldl (fun o p =>
    if containsSub ("__".data) p.1 then o else setKey o p.1 (cellToJVal p.2)) []
  validJoins.foldlM (fun o j => applyJoin o row j) mainEntity

/-- `mapJoinedResults` over a full result set (lines 1376-1496). -/
def mapJoinedResults (rows : List ResultRow) (validJoins : List JoinInfo) :
    Option (List (List (Str × JVal))) :=
  rows.mapM (fun r => mapJoinedResultsRow r validJoins)

/-! ### C3 and C10: join planning, aliases and join kinds

`processRelation` inside `findWithJoins` (lines 851-1107) and the join loop
of `countWithJoins` (lines 1603-1698).  The model keeps what the claims are
about: the alias naming scheme, the `alreadyExists` deduplication, the
LEFT-JOIN clause with its ON columns, and the recursion into nested
relations.  Select-column assembly, metadata resolution failures (early
`return`s drop a relation without adding a join; they add nothing, so they
cannot affect the join-kind or alias properties) and virtual-entity subquery
text are elided. -/

/-- JS `array.join('_')`, as used to build alias prefixes. -/
def joinUnderscore : List Str → Str
  | [] => []
  | [s] => s
  | s :: t :: rest => s ++ '_' :: joinUnderscore (t :: rest)

/-- The alias assigned to a relation path: `join_` followed by the
underscore-joined path segments (lines 863-865, 1139-1141). -/
def aliasOfPath (path : List Str) : Str := ("join_".data) ++ joinUnderscore path

/-- Kind of an emitted SQL join clause. -/
inductive JoinKind where
  | leftJoin
  | innerJoin
deriving DecidableEq, Repr

/-- An emitted join clause: its kind and the two sides of its ON equation
(parent alias qualified FK column, join alias qualified id column).
Identifier quoting is dialect noise for these claims and is left out. -/
structure JoinClause where
  kind : JoinKind
  onParentCol : Str
  onChildCol : Str
deriving DecidableEq, Repr

/-- A planned join node as recorded in `validJoins` (lines 965-971). -/
structure JoinNodeRec where
  fieldKey : Str
  joinAlias : Str
deriving DecidableEq, Repr

/-- Input to the planner: the relation tree implied by the requested includes
and the nested `@JOIN:` paths (one node per relation, children from
`include[]` items and `nestedRelations`). -/
inductive RelTree where
  | node (fieldKey : Str) (fkDbName : Str) (relatedIdDbName : Str) (children : List RelTree)

/-- Unquoted `alias.column` reference. -/
def colD (aliasName column : Str) : Str := aliasName ++ '.' :: column

/-- The field key of a tree node. -/
def RelTree.fieldKey : RelTree → Str
  | .node k _ _ _ => k

/-- The alias computed for a relation at prefix `pre` (lines 863-865):
`join_<fieldKey>` at the root, `join_<pre>_<fieldKey>` below. -/
def pathJoinAlias (pre fieldKey : Str) : Str :=
  if pre.isEmpty then ("join_".data) ++ fieldKey
  else ("join_".data) ++ pre ++ '_' :: fieldKey

/-- The full underscore-joined key recorded for a nested relation
(lines 965-968) and passed down as the next prefix (lines 1072-1074). -/
def pathFullKey (pre fieldKey : Str) : Str :=
  if pre.isEmpty then fieldKey else pre ++ '_' :: fieldKey

mutual
/-- `processRelation` (lines 851-1101): compute the path alias, skip the
join when a node with that alias already exists (lines 948-957), otherwise
add the node and a LEFT JOIN clause `parent.fk = alias.id` (lines 959-971),
then recurse into the nested relations with the extended prefix (lines
1046-1100). -/
def processRelation (t : RelTree) (parentAlias pre : Str)
    (acc : List JoinNodeRec × List JoinClause) : List JoinNodeRec × List JoinClause :=
  match t with
  | .node fieldKey fkDbName relatedIdDbName children =>
    let acc1 :=
      if acc.1.any (fun j => j.joinAlias = pathJoinAlias pre fieldKey) then acc
      else
        (acc.1 ++ [⟨pathFullKey pre fieldKey, pathJoinAlias pre fieldKey⟩],
         acc.2 ++ [⟨.leftJoin, colD parentAlias fkDbName,
                    colD (pathJoinAlias pre fieldKey) relatedIdDbName⟩])
    processRelations children (pathJoinAlias pre fieldKey) (pathFullKey pre fieldKey) acc1

/-- The loops over nested relations (lines 1046-1100) and over the top-level
relations to join (lines 1104-1107). -/
def processRelations (ts : List RelTree) (parentAlias pre : Str)
    (acc : List JoinNodeRec × List JoinClause) : List JoinNodeRec × List JoinClause :=
  match ts with
  | [] => acc
  | t :: rest => processRelations rest parentAlias pre (processRelation t parentAlias pre acc)
end

mutual
/-- The aliases a subtree will try to claim; a pure function of the prefix
and the tree, independent of the accumulated plan. -/
def subtreeAliases (t : RelTree) (pre : Str) : List Str :=
  match t with
  | .node fieldKey _ _ children =>
    pathJoinAlias pre fieldKey :: subtreeAliasesList children (pathFullKey pre fieldKey)

/-- List version of `subtreeAliases`. -/
def subtreeAliasesList (ts : List RelTree) (pre : Str) : List Str :=
  match ts with
  | [] => []
  | t :: rest => subtreeAliases t pre ++ subtreeAliasesList rest pre
end

/-- One resolved relation of the `countWithJoins` loop (lines 1603-1698);
the loop adds one LEFT JOIN per entry. -/
structure CountJoinRelation where
  fieldKey : Str
  fkDbName : Str
  relatedIdDbName : Str
deriving DecidableEq, Repr

/-- The join clauses built by `countWithJoins` (lines 1681-1691): one flat
`leftJoin` per relation, `main.fk = join_key.id`. -/
def countWithJoinsClauses (mainTableAlias : Str) (relations : List CountJoinRelation) :
    List JoinClause :=
  relations.map (fun r =>
    ⟨.leftJoin, colD mainTableAlias r.fkDbName,
     colD (("join_".data) ++ r.fieldKey) r.relatedIdDbName⟩)

/-! ### C9: MSSQL trigger-safe insert fallback

`SafeKnexDataProvider.getEntityDataProvider` in
`src/projects/core/src/mssql-safe-knex-provider.ts` (lines 18-92).  Error
messages are strings; the regex tests of lines 39-45 are modeled on the
message normalized to lower case with whitespace runs collapsed (the `/i`
flag and `\s+`), with `[\s\S]*?` and `.*` gaps modeled as independent
substring tests.  `toDbValue` is modeled as the identity on the already
store-shaped values. -/

/-- Writable-column metadata consumed by the fallback projection
(lines 53-59). -/
structure WriteFieldMeta where
  key : Str
  dbName : Str
  isServerExpression : Bool
  dbReadOnly : Bool
deriving DecidableEq, Repr

/-- Observable steps of one insert call. -/
inductive InsertEvent where
  | origInsert
  | fallbackInsertWithoutOutput (payload : List (Str × Str))
  | scopeIdentityQuery
  | refetchById (id : Nat)
deriving DecidableEq, Repr

/-- The fixed trigger/OUTPUT-clause phrase classifier (lines 39-45). -/
def looksLikeTriggerOutputError (msg : Str) : Bool :=
  let m := normSpace (toLowerL msg)
  containsSub ("output inserted".data) m
  || containsSub ("output into".data) m
  || (containsSub ("output".data) m && containsSub ("without into clause".data) m)
  || containsSub ("cannot use the output clause".data) m
  || (containsSub ("cannot have any enabled triggers".data) m
      && containsSub ("output clause".data) m)
  || containsSub ("with an instead of trigger".data) m

/-- The distinguishable error thrown when `SCOPE_IDENTITY()` returns no key
(lines 76-80). -/
def scopeIdentityFallbackMessage : Str :=
  "Insert fallback con SCOPE_IDENTITY() no devolvió id (¿la PK no es IDENTITY?).".data

/-- The fallback's explicit insert projection (lines 52-59): every field that
is not a server expression, not read-only and present in the input data
contributes its db column and value; nothing else does. -/
def fallbackInsertPayload (fields : List WriteFieldMeta) (data : List (Str × Str)) :
    List (Str × Str) :=
  fields.filterMap (fun f =>
    if f.isServerExpression then none
    else if f.dbReadOnly then none
    else (data.lookup f.key).map (fun v => (f.dbName, v)))

/-- The wrapped `edp.insert` (lines 25-89).  Inputs: the original insert's
outcome, the entity's fields, the input data, the `SCOPE_IDENTITY()` query's
outcome on the same connection, and the by-primary-key lookup used for the
final re-fetch (`r[0]`, hence an `Option`).  Output: the call's outcome and
the trace of steps taken. -/
def safeInsert {A : Type} (origRes : Except Str A) (fields : List WriteFieldMeta)
    (data : List (Str × Str)) (identityRes : Option Nat) (findById : Nat → Option A) :
    Except Str (Option A) × List InsertEvent :=
  match origRes with
  | .ok r => (.ok (some r), [.origInsert])
  | .error msg =>
    if looksLikeTriggerOutputError msg then
      let payload := fallbackInsertPayload fields data
      match identityRes with
      | none =>
        (.error scopeIdentityFallbackMessage,
         [.origInsert, .fallbackInsertWithoutOutput payload, .scopeIdentityQuery])
      | some newId =>
        (.ok (findById newId),
         [.origInsert, .fallbackInsertWithoutOutput payload, .scopeIdentityQuery,
          .refetchById newId])
    else (.error msg, [.origInsert])

/-- The dialect gate of `getEntityDataProvider` (line 20): the wrapper is
installed only when the underlying client is `mssql`; otherwise the original
insert's outcome passes through untouched. -/
def insertViaProvider {A : Type} (isMssql : Bool) (origRes : Except Str A)
    (fields : List WriteFieldMeta) (data : List (Str × Str)) (identityRes : Option Nat)
    (findById : Nat → Option A) : Except Str (Option A) × List InsertEvent :=
  if isMssql then safeInsert origRes fields data identityRes findById
  else (origRes.map some, [.origInsert])

/-! ### Entity metadata and dialect-aware identifier quoting

Shared by the expression-resolver claims (C2, C6, C8).  Entity/field/relation
descriptors keep exactly what the resolver reads: keys, optional `dbName`s,
the id field (`idMetadata.fields[0]`, by key and optional `dbName`) and per
field an optional relation descriptor (`fieldRelationInfo`) giving the target
entity.  The two ways the source learns the declared FK key —
`relationInfo.fieldsMetadata[0]` and `options.field`/`options.fieldKey`
(lines 133-143) — are collapsed into the single `fkKey` slot.  Entity-level
`sqlExpression` (virtual table text, lines 342-363 and 443-480) is not
modeled: the claims below are decided before or independently of that branch,
which only changes the FROM text. -/

mutual
/-- Entity descriptor: key, optional db name, id field (key, optional db
name), field list. -/
inductive EntityMeta : Type where
  | mk (key : Str) (dbName : Option Str) (idKeyDb : Option (Str × Option Str))
       (fields : List FieldMetaM) : EntityMeta

/-- Field descriptor: key, optional db name, optional relation info. -/
inductive FieldMetaM : Type where
  | mk (key : Str) (dbName : Option Str) (rel : Option RelInfoM) : FieldMetaM

/-- Relation descriptor (`fieldRelationInfo`): declared FK field key, if any,
and the target entity (`toRepo.metadata`). -/
inductive RelInfoM : Type where
  | mk (fkKey : Option Str) (target : EntityMeta) : RelInfoM
end

def EntityMeta.key : EntityMeta → Str
  | .mk k _ _ _ => k

def EntityMeta.dbName : EntityMeta → Option Str
  | .mk _ d _ _ => d

def EntityMeta.idKeyDb : EntityMeta → Option (Str × Option Str)
  | .mk _ _ i _ => i

def EntityMeta.fields : EntityMeta → List FieldMetaM
  | .mk _ _ _ fs => fs

def FieldMetaM.key : FieldMetaM → Str
  | .mk k _ _ => k

def FieldMetaM.dbName : FieldMetaM → Option Str
  | .mk _ d _ => d

def FieldMetaM.rel : FieldMetaM → Option RelInfoM
  | .mk _ _ r => r

def RelInfoM.fkKey : RelInfoM → Option Str
  | .mk f _ => f

def RelInfoM.target : RelInfoM → EntityMeta
  | .mk _ t => t

/-- `entity.dbName || entity.key`. -/
def EntityMeta.tableName (e : EntityMeta) : Str := e.dbName.getD e.key

/-- `field.options.dbName || field.key`. -/
def FieldMetaM.dbNameOr (f : FieldMetaM) : Str := f.dbName.getD f.key

/-- `idField ? (idField.options.dbName || idField.key) : 'id'`
(lines 323-326, 482-485, 510-513). -/
def EntityMeta.idDbName (e : EntityMeta) : Str :=
  match e.idKeyDb with
  | some (k, db) => db.getD k
  | none => "id".data

/-- Find a field by key. -/
def EntityMeta.findField (e : EntityMeta) (k : Str) : Option FieldMetaM :=
  e.fields.find? (fun f => f.key = k)

/-- Find a field by key or db name (`f.key === fieldName || dbName ===
fieldName`, lines 329-332 and elsewhere). -/
def EntityMeta.findFieldByKeyOrDb (e : EntityMeta) (name : Str) : Option FieldMetaM :=
  e.fields.find? (fun f => f.key = name || f.dbNameOr = name)

/-- Supported identifier-quoting dialects; `ansi` stands for every
non-mssql, non-pg client (the knex fallback also double-quotes). -/
inductive Dialect where
  | mssql
  | pg
  | ansi
deriving DecidableEq, Repr

/-- `OptimizedEntityDataProvider.wrapIdentifier` (lines 69-91): already
quoted or structural fragments pass through; otherwise bracket-quote on
MSSQL and double-quote (with `"`-doubling) elsewhere. -/
def wrapIdentifier (d : Dialect) (id : Str) : Str :=
  match id with
  | [] => []
  | c :: _ =>
    if c = '[' || c = '"' then id
    else if containsSub ("(".data) id || containsSub (" ".data) id
        || containsSub (".[".data) id then id
    else
      match d with
      | .mssql => '[' :: (id ++ (("]".data)))
      | _ => '"' :: (replaceSub ("\"".data) ("\"\"".data) id ++ (("\"".data)))

/-- `FilterToKnexBridge.wrapIdentifier` (lines 2019-2031): same shape but
without the `.[` passthrough. -/
def wrapIdentifierB (d : Dialect) (id : Str) : Str :=
  match id with
  | [] => []
  | c :: _ =>
    if c = '[' || c = '"' then id
    else if containsSub ("(".data) id || containsSub (" ".data) id then id
    else
      match d with
      | .mssql => '[' :: (id ++ (("]".data)))
      | _ => '"' :: (replaceSub ("\"".data) ("\"\"".data) id ++ (("\"".data)))

/-- `wrapTableName` (lines 93-103, 2037-2047), parameterized by the wrapping
function of the owning class. -/
def wrapTableNameWith (wrap : Str → Str) (name : Str) : Str :=
  match name with
  | [] => []
  | _ =>
    if containsSub ("(".data) name then name
    else if containsSub (".".data) name then
      joinWith (".".data) ((splitOnChar '.' name).map wrap)
    else wrap name

/-- Provider-side `wrapTableName`. -/
def wrapTableName (d : Dialect) (name : Str) : Str :=
  wrapTableNameWith (wrapIdentifier d) name

/-- Bridge-side `wrapTableName`. -/
def wrapTableNameB (d : Dialect) (name : Str) : Str :=
  wrapTableNameWith (wrapIdentifierB d) name

/-- `this.col(alias, column)` (lines 105-107). -/
def col (d : Dialect) (aliasName column : Str) : Str :=
  wrapIdentifier d aliasName ++ '.' :: wrapIdentifier d column

/-- Bridge-side `col` (lines 2033-2035). -/
def colB (d : Dialect) (aliasName column : Str) : Str :=
  wrapIdentifierB d aliasName ++ '.' :: wrapIdentifierB d column

/-- The `[identifier]` re-quoting pass of `normalizeSql` (line 115): every
`[id]` group is re-quoted through the given wrapper.  Fuel-driven; fuel
`s.length` suffices since every step consumes at least one character. -/
def rewriteBrackets (wrap : Str → Str) : Nat → Str → Str
  | 0, s => s
  | _, [] => []
  | fuel + 1, c :: rest =>
    if c = '[' then
      let idPart := rest.takeWhile (fun x => x ≠ ']')
      let rest2 := rest.dropWhile (fun x => x ≠ ']')
      match rest2 with
      | ']' :: rest3 =>
        if idPart.isEmpty then c :: rewriteBrackets wrap fuel rest
        else wrap idPart ++ rewriteBrackets wrap fuel rest3
      | _ => c :: rewriteBrackets wrap fuel rest
    else c :: rewriteBrackets wrap fuel rest

/-- `normalizeSql` (lines 113-118): re-quote bracketed identifiers, then
collapse duplicated `main` alias prefixes. -/
def normalizeSql (d : Dialect) (sql : Str) : Str :=
  replaceSub ("[main].[main].".data) ("[main].".data)
    (replaceSub ("\"main\".\"main\".".data) ("\"main\".".data)
      (rewriteBrackets (wrapIdentifier d) sql.length sql))

/-- Bridge-side `normalizeSql` (lines 2049-2056). -/
def normalizeSqlB (d : Dialect) (sql : Str) : Str :=
  replaceSub ("[main].[main].".data) ("[main].".data)
    (replaceSub ("\"main\".\"main\".".data) ("\"main\".".data)
      (rewriteBrackets (wrapIdentifierB d) sql.length sql))

/-- Result of `getRelationDetails` (lines 120-152). -/
structure RelationDetails where
  relationField : Option FieldMetaM
  relationInfo : Option RelInfoM
  relatedEntity : Option EntityMeta
  fkField : Option FieldMetaM

/-- `getRelationDetails` (lines 120-152): look up the relation field, its
relation info and target; resolve the FK field from the declared FK key
(`fieldsMetadata[0]` / `options.field`, both modeled by `RelInfoM.fkKey`) and
fall back to the `<relationKey>Id` naming convention. -/
def getRelationDetails (ent : EntityMeta) (relationKey : Str) : RelationDetails :=
  let relationField := ent.findField relationKey
  let relationInfo := relationField.bind (fun f => f.rel)
  let relatedEntity := relationInfo.map (fun ri => ri.target)
  let fkByInfo := relationInfo.bind (fun ri => ri.fkKey.bind (fun k => ent.findField k))
  let fkByConvention := ent.findField (relationKey ++ ("Id".data))
  ⟨relationField, relationInfo, relatedEntity, fkByInfo <|> fkByConvention⟩

/-! ### C8: converting `@JOIN:` tokens to subqueries never errors -/

/-- The resolution prefix of `simpleJoinToSubquery` (lines 296-321): FK field
(details or convention), relation info (relation field's, else the FK
field's), related entity (details, else the info's target). -/
def simpleHopResolution (ent : EntityMeta) (relationKey : Str) :
    Option (FieldMetaM × RelInfoM × EntityMeta) :=
  let rd := getRelationDetails ent relationKey
  match rd.fkField <|> ent.findField (relationKey ++ ("Id".data)) with
  | none => none
  | some fkField =>
    let relationInfoO :=
      match rd.relationField with
      | some rf =>
        match rf.rel with
        | some ri => some ri
        | none => fkField.rel
      | none => fkField.rel
    match relationInfoO with
    | none => none
    | some relationInfo =>
      some (fkField, relationInfo, rd.relatedEntity.getD relationInfo.target)

/-- `simpleJoinToSubquery` (lines 291-376): resolve the single hop, then the
target field by key or db name; any failure yields the literal `NULL`,
otherwise the correlated scalar subquery. -/
def simpleJoinToSubquery (d : Dialect) (ent : EntityMeta)
    (relationKey fieldName mainTableAlias : Str) : Str :=
  match simpleHopResolution ent relationKey with
  | none => "NULL".data
  | some (fkField, _, relatedEntity) =>
    match relatedEntity.findFieldByKeyOrDb fieldName with
    | none => "NULL".data
    | some relatedField =>
      normalizeSql d (("(SELECT ".data) ++ wrapIdentifier d relatedField.dbNameOr
        ++ (" FROM ".data) ++ wrapTableName d relatedEntity.tableName
        ++ (" WHERE ".data) ++ wrapIdentifier d relatedEntity.idDbName
        ++ (" = ".data) ++ col d mainTableAlias fkField.dbNameOr ++ (")".data))

/-- The alias `t<i>` given to hop `i` of a nested subquery (line 488). -/
def tAlias (i : Nat) : Str := 't' :: (toString i).data

/-- The hop loop of `nestedJoinToSubquery` (lines 415-506): walk the relation
path from the driving entity; every hop must resolve an FK field, a relation
field and relation info, else the whole token collapses (`none`, rendered
`NULL` by the caller).  Returns the accumulated FROM/JOIN fragments and the
final entity.  `i` is the hop index for aliasing. -/
def nestedHops (d : Dialect) : EntityMeta → List Str → Nat → Option (List Str × EntityMeta)
  | ent, [], _ => some ([], ent)
  | ent, relationKey :: restPath, i =>
    let rd := getRelationDetails ent relationKey
    match rd.fkField <|> ent.findField (relationKey ++ ("Id".data)),
        rd.relationField <|> ent.findField relationKey with
    | some fkField, some relationField =>
      match rd.relationInfo <|> relationField.rel with
      | none => none
      | some ri =>
        let nextEntity := rd.relatedEntity.getD ri.target
        let nextTableExpression := wrapTableName d nextEntity.tableName
        let thisJoin :=
          if i = 0 then nextTableExpression ++ ' ' :: wrapIdentifier d (tAlias i)
          else ("INNER JOIN ".data) ++ nextTableExpression ++ ' ' :: wrapIdentifier d (tAlias i)
            ++ (" ON ".data) ++ col d (tAlias i) nextEntity.idDbName
            ++ (" = ".data) ++ col d (tAlias (i - 1)) fkField.dbNameOr
        match nestedHops d nextEntity restPath (i + 1) with
        | none => none
        | some (joins, lastEnt) => some (thisJoin :: joins, lastEnt)
    | _, _ => none

/-- `nestedJoinToSubquery` (lines 404-566): build the hop chain, find the
target field on the final entity, re-resolve hop 0's FK (by naming convention
only, lines 525-535) and relation target id, and assemble one flat subquery:
`(SELECT t<n-1>.target FROM <chain> WHERE t0.<id0> = <alias>.<fk0>)`.  Any
unresolvable piece yields `NULL`. -/
def nestedJoinToSubquery (d : Dialect) (ent : EntityMeta) (relationPath : List Str)
    (fieldName mainTableAlias : Str) : Str :=
  match nestedHops d ent relationPath 0 with
  | none => "NULL".data
  | some (joins, lastEntity) =>
    match lastEntity.findFieldByKeyOrDb fieldName with
    | none => "NULL".data
    | some targetField =>
      match relationPath.head? with
      | none => "NULL".data
      | some firstRelationKey =>
        match ent.findField (firstRelationKey ++ ("Id".data)) with
        | none => "NULL".data
        | some firstFkField =>
          match ent.findField firstRelationKey with
          | none => "NULL".data
          | some firstRelationField =>
            match firstRelationField.rel with
            | none => "NULL".data
            | some firstRelationInfo =>
              normalizeSql d (("(SELECT ".data)
                ++ col d (tAlias (relationPath.length - 1)) targetField.dbNameOr
                ++ (" FROM ".data) ++ joinWith (" ".data) joins
                ++ (" WHERE ".data) ++ col d (tAlias 0) firstRelationInfo.target.idDbName
                ++ (" = ".data) ++ col d mainTableAlias firstFkField.dbNameOr ++ (")".data))

/-- The per-token replacement callback of the provider's
`convertJoinToSubquery` (lines 252-286): split the captured path on dots;
fewer than two segments yield `NULL`; one relation segment goes to
`simpleJoinToSubquery`, more go to `nestedJoinToSubquery`.  The `tableAlias`
parameter defaults to the entity's table name (lines 257-258). -/
def convertJoinTokenToSubquery (d : Dialect) (ent : EntityMeta) (fullPath : Str)
    (tableAlias : Option Str) : Str :=
  let mainTableAlias := tableAlias.getD ent.tableName
  let parts := splitOnChar '.' fullPath
  if parts.length < 2 then "NULL".data
  else
    let fieldName := parts.getLastD []
    let relationPath := parts.dropLast
    if relationPath.length = 1 then
      simpleJoinToSubquery d ent (relationPath.headD []) fieldName mainTableAlias
    else nestedJoinToSubquery d ent relationPath fieldName mainTableAlias

/-! ### C2: JOIN-column mode versus correlated-subquery mode -/

/-- One entry of the bridge's `validJoins` (lines 2007-2013). -/
structure ValidJoin where
  fieldKey : Str
  relatedEntity : EntityMeta
  joinAlias : Str

/-- The per-token callback of `FilterToKnexBridge.convertJoinToSubquery`
(lines 2475-2565): FK field strictly by naming convention, relation info read
off the FK field, then the correlated scalar subquery; every missing piece
yields `NULL`. -/
def bridgeConvertJoinToken (d : Dialect) (ent : EntityMeta)
    (relationKey fieldName mainTableAlias : Str) : Str :=
  match ent.findField (relationKey ++ ("Id".data)) with
  | none => "NULL".data
  | some fkField =>
    match fkField.rel with
    | none => "NULL".data
    | some relationInfo =>
      let relatedEntity := relationInfo.target
      match relatedEntity.findFieldByKeyOrDb fieldName with
      | none => "NULL".data
      | some relatedField =>
        normalizeSqlB d (("(SELECT ".data) ++ wrapIdentifierB d relatedField.dbNameOr
          ++ (" FROM ".data) ++ wrapTableNameB d relatedEntity.tableName
          ++ (" WHERE ".data) ++ wrapIdentifierB d relatedEntity.idDbName
          ++ (" = ".data) ++ colB d mainTableAlias fkField.dbNameOr ++ (")".data))

/-- The `@JOIN:` branch of `FilterToKnexBridge.getColumnNameAsync`
(lines 2286-2327) for a token with at least two dot segments: if a join whose
alias matches the underscore-joined relation path is active, resolve to the
qualified join-alias column (or `null` when the target field is unknown);
otherwise fall back to `convertJoinToSubquery`, whose single-hop regex
substitutes only the first `relation.field` pair of the token and leaves any
remaining segments as literal text. -/
def getColumnNameForJoinToken (d : Dialect) (ent : EntityMeta)
    (validJoins : List ValidJoin) (tableAlias fullPath : Str) : Option Str :=
  let parts := splitOnChar '.' fullPath
  if parts.length < 2 then none
  else
    let fieldName := parts.getLastD []
    let relationPath := parts.dropLast
    let joinAliasToFind := ("join_".data) ++ joinUnderscore relationPath
    match validJoins.find? (fun j => j.joinAlias = joinAliasToFind) with
    | some matchingJoin =>
      match matchingJoin.relatedEntity.findFieldByKeyOrDb fieldName with
      | some relatedField => some (colB d matchingJoin.joinAlias relatedField.dbNameOr)
      | none => none
    | none =>
      match relationPath with
      | [k] => some (bridgeConvertJoinToken d ent k fieldName tableAlias)
      | k1 :: _ :: _ =>
        some (bridgeConvertJoinToken d ent k1 (parts.getD 1 []) tableAlias
          ++ '.' :: joinWith (".".data) (parts.drop 2))
      | [] => none

/-! ### Relational semantics of the emitted SQL

The execution engine is external to the repository; the fragments the
provider emits (LEFT JOIN on `parent.fk = alias.id`, correlated scalar
subquery `(SELECT v FROM t WHERE t.id = alias.fk)`) are given their standard
SQL meaning over tables modeled as lists of rows with nullable cells.  SQL
`NULL` never compares equal, so a null foreign key matches no row. -/

/-- A stored row: column name to nullable value. -/
abbrev DbRow := List (Str × Option Str)

/-- Read a column; an absent column reads as SQL `NULL`. -/
def getColV (r : DbRow) (c : Str) : Option Str :=
  match r.lookup c with
  | some v => v
  | none => none

/-- The rows of `target` whose `idCol` equals the (nullable) value `v` under
SQL equality: `NULL` matches nothing. -/
def matchRows (target : List DbRow) (idCol : Str) (v : Option Str) : List DbRow :=
  match v with
  | none => []
  | some x => target.filter (fun tr => getColV tr idCol = some x)

/-- SQL uniqueness of an id column: the non-null id values are pairwise
distinct (a primary key; rows with a null id may coexist but match
nothing). -/
def uniqueIdCol (target : List DbRow) (idCol : Str) : Prop :=
  ((target.map (fun tr => getColV tr idCol)).filterMap id).Nodup

/-- LEFT JOIN output for one driving row: one output per matching target row,
or a single null-extended output when nothing matches. -/
def leftJoinOutputs (r : DbRow) (target : List DbRow) (fkCol idCol : Str) :
    List (Option DbRow) :=
  match matchRows target idCol (getColV r fkCol) with
  | [] => [none]
  | ms => ms.map some

/-- JOIN-mode values of a resolved column `joinAlias.valCol` for one driving
row: the projected column of each LEFT JOIN output (SQL `NULL` on the
null-extended row). -/
def joinModeValues (r : DbRow) (target : List DbRow) (fkCol idCol valCol : Str) :
    List (Option Str) :=
  (leftJoinOutputs r target fkCol idCol).map (fun om =>
    match om with
    | some m => getColV m valCol
    | none => none)

/-- Subquery-mode value of `(SELECT valCol FROM target WHERE target.idCol =
r.fkCol)`: `NULL` for zero matches, the value for one match, and an engine
error (outer `none`) for several matches — a scalar subquery must not return
more than one row. -/
def scalarSubqueryValue (r : DbRow) (target : List DbRow) (fkCol idCol valCol : Str) :
    Option (Option Str) :=
  match matchRows target idCol (getColV r fkCol) with
  | [] => some none
  | [m] => some (getColV m valCol)
  | _ => none

/-- Driving rows selected by `WHERE pred(columnValue)` in JOIN mode: the
WHERE clause runs over the joined row set, so a driving row is emitted once
per surviving output row. -/
def joinModeSelect (base target : List DbRow) (fkCol idCol valCol : Str)
    (pred : Option Str → Bool) : List DbRow :=
  base.flatMap (fun r =>
    (joinModeValues r target fkCol idCol valCol).filterMap (fun v =>
      if pred v then some r else none))

/-- Driving rows selected by the same WHERE in subquery mode (an erroring
subquery selects nothing; under a unique key it never errors). -/
def subquerySelect (base target : List DbRow) (fkCol idCol valCol : Str)
    (pred : Option Str → Bool) : List DbRow :=
  base.filter (fun r =>
    match scalarSubqueryValue r target fkCol idCol valCol with
    | some v => pred v
    | none => false)

/-- One semantic LEFT JOIN of the chain built by `findWithJoins` /
`countWithJoins`: target table, FK column on the driving row, id column on
the target. -/
structure JoinSpecSem where
  target : List DbRow
  fkCol : Str
  idCol : Str

/-- Extend every accumulated output row by one LEFT JOIN. -/
def extendRows (rows : List (DbRow × List (Option DbRow))) (s : JoinSpecSem) :
    List (DbRow × List (Option DbRow)) :=
  rows.flatMap (fun p =>
    match matchRows s.target s.idCol (getColV p.1 s.fkCol) with
    | [] => [(p.1, p.2 ++ [none])]
    | ms => ms.map (fun m => (p.1, p.2 ++ [some m])))

/-- The row set of the joined statement: the base table extended by every
planned LEFT JOIN in order. -/
def leftJoinChain (base : List DbRow) (specs : List JoinSpecSem) :
    List (DbRow × List (Option DbRow)) :=
  specs.foldl extendRows (base.map (fun r => (r, [])))

/-! ### C6: spec-side shape of the multi-hop subquery -/

/-- Per-hop resolved names: the (already wrapped) table expression joined at
this hop, its id column, and the FK column on the previous hop's table (on
the driving entity for hop 0). -/
structure HopSpec where
  tableExpression : Str
  idDb : Str
  fkDb : Str

/-- Spec-side FROM/JOIN fragment for hop `i`: hop 0 is the driving FROM
table aliased `t0`; hop `i ≥ 1` is `INNER JOIN <table> t<i> ON t<i>.<id> =
t<i-1>.<fk>`. -/
def specJoinClause (d : Dialect) (i : Nat) (h : HopSpec) : Str :=
  if i = 0 then h.tableExpression ++ ' ' :: wrapIdentifier d (tAlias 0)
  else ("INNER JOIN ".data) ++ h.tableExpression ++ ' ' :: wrapIdentifier d (tAlias i)
    ++ (" ON ".data) ++ col d (tAlias i) h.idDb
    ++ (" = ".data) ++ col d (tAlias (i - 1)) h.fkDb

/-- Spec-side multi-hop subquery (the amended C6 shape): one single
correlated subquery whose FROM clause chains one INNER JOIN per hop, hop 0
correlated to the driving alias in the WHERE clause, and the final SELECT
projecting the last hop's target column. -/
def specNestedSubquery (d : Dialect) (mainAlias : Str) (hops : List HopSpec)
    (targetDb firstIdDb firstFkDb : Str) : Str :=
  normalizeSql d (("(SELECT ".data) ++ col d (tAlias (hops.length - 1)) targetDb
    ++ (" FROM ".data)
    ++ joinWith (" ".data) (hops.enum.map (fun p => specJoinClause d p.1 p.2))
    ++ (" WHERE ".data) ++ col d (tAlias 0) firstIdDb
    ++ (" = ".data) ++ col d mainAlias firstFkDb ++ (")".data))

/-- Successful hop-by-hop resolution of a relation path, stated with the
source's own resolution rules (`getRelationDetails` plus the conventions of
`nestedJoinToSubquery`), recording each hop's resolved names. -/
inductive HopsResolve (d : Dialect) : EntityMeta → List Str → List HopSpec → EntityMeta → Prop where
  | nil (ent : EntityMeta) : HopsResolve d ent [] [] ent
  | cons (ent : EntityMeta) (relationKey : Str) (rest : List Str)
      (fkField relationField : FieldMetaM) (ri : RelInfoM)
      (hops : List HopSpec) (lastEnt : EntityMeta)
      (hfk : ((getRelationDetails ent relationKey).fkField
        <|> ent.findField (relationKey ++ ("Id".data))) = some fkField)
      (hrf : ((getRelationDetails ent relationKey).relationField
        <|> ent.findField relationKey) = some relationField)
      (hri : ((getRelationDetails ent relationKey).relationInfo
        <|> relationField.rel) = some ri)
      (hrest : HopsResolve d ((getRelationDetails ent relationKey).relatedEntity.getD ri.target)
        rest hops lastEnt) :
      HopsResolve d ent (relationKey :: rest)
        (⟨wrapTableName d ((getRelationDetails ent relationKey).relatedEntity.getD ri.target).tableName,
          ((getRelationDetails ent relationKey).relatedEntity.getD ri.target).idDbName,
          fkField.dbNameOr⟩ :: hops) lastEnt

/-! ### Concrete fixtures used by witnesses and counterexamples -/

/-- A `Company`-like related entity (cf. the test entities in
`src/unnamed/part_001`). -/
def companyMeta : EntityMeta :=
  .mk ("Company".data) none (some ("id".data, none))
    [.mk ("id".data) none none,
     .mk ("name".data) none none,
     .mk ("city".data) none none]

/-- An `Order`-like driving entity with a `customer` relation whose FK is
`customerId`; the relation info is reachable from both the relation field and
the FK field. -/
def orderMeta : EntityMeta :=
  .mk ("Order".data) none (some ("id".data, none))
    [.mk ("id".data) none none,
     .mk ("customerId".data) none (some (.mk (some ("customerId".data)) companyMeta)),
     .mk ("customer".data) none (some (.mk (some ("customerId".data)) companyMeta))]

/-- Last entity of a two-hop chain. -/
def cMeta : EntityMeta :=
  .mk ("C".data) none (some ("id".data, none))
    [.mk ("id".data) none none,
     .mk ("login".data) none none]

/-- Middle entity of a two-hop chain, related to `cMeta` through `c` /
`cId`. -/
def bMeta : EntityMeta :=
  .mk ("B".data) none (some ("id".data, none))
    [.mk ("id".data) none none,
     .mk ("cId".data) none (some (.mk (some ("cId".data)) cMeta)),
     .mk ("c".data) none (some (.mk (some ("cId".data)) cMeta))]

/-- Driving entity of a two-hop chain, related to `bMeta` through `b` /
`bId`. -/
def aMeta : EntityMeta :=
  .mk ("A".data) none (some ("id".data, none))
    [.mk ("id".data) none none,
     .mk ("bId".data) none (some (.mk (some ("bId".data)) bMeta)),
     .mk ("b".data) none (some (.mk (some ("bId".data)) bMeta))]

/-- A concrete `Company` table with unique ids. -/
def companyRows : List DbRow :=
  [[(("id".data), some ("1".data)), (("city".data), some ("NYC".data))],
   [(("id".data), some ("2".data)), (("city".data), some ("LA".data))]]

/-- A concrete `Order` table; the last row's foreign key matches no
company. -/
def orderRows : List DbRow :=
  [[(("id".data), some ("10".data)), (("customerId".data), some ("1".data))],
   [(("id".data), some ("11".data)), (("customerId".data), some ("2".data))],
   [(("id".data), some ("12".data)), (("customerId".data), some ("99".data))]]

/-! ## Theorems -/

/-- Auxiliary for C7: the OR loop yields no predicate as soon as any branch
is unconstrained, whatever was accumulated before it. -/
theorem orTranslateGo_unconstrained {α : Type} :
    ∀ (branches : List (List (α → Bool))) (acc : List (α → Bool)),
      (∃ b ∈ branches, b = []) → orTranslateGo branches acc = [] := by
  intro branches
  induction branches with
  | nil => intro acc h; simp at h
  | cons b rest ih =>
    intro acc h
    rcases h with ⟨c, hc, hce⟩
    rcases List.mem_cons.mp hc with h1 | h2
    · rw [h1] at hce
      subst hce
      simp [orTranslateGo]
    · by_cases hb : b.isEmpty
      · simp [orTranslateGo, hb]
      · simp only [orTranslateGo, hb, if_neg, Bool.false_eq_true, not_false_eq_true]
        exact ih _ ⟨c, h2, hce⟩

/-- C7: in filter translation, an OR with at least one branch translating to
zero predicates contributes no predicate at all (no restriction: every row
passes), and NOT of an inner translation with zero predicates likewise
contributes no predicate — never an exclude-everything predicate. -/
theorem or_not_unconstrained_identity {α : Type} (branches : List (List (α → Bool)))
    (h : ∃ b ∈ branches, b = []) :
    orTranslate branches = []
    ∧ (∀ r, applyPreds (orTranslate branches) r = true)
    ∧ notTranslate ([] : List (α → Bool)) = []
    ∧ (∀ r, applyPreds (notTranslate ([] : List (α → Bool))) r = true) := by
  have h1 : orTranslate branches = [] := orTranslateGo_unconstrained branches [] h
  refine ⟨h1, ?_, rfl, ?_⟩
  · intro r; rw [h1]; rfl
  · intro r; rfl

/-- Witness for C7 at a concrete OR whose second branch is unconstrained. -/
theorem or_not_unconstrained_identity_witness :
    orTranslate ([[fun n => decide (n = 1)], []] : List (List (Nat → Bool))) = []
    ∧ applyPreds (orTranslate ([[fun n => decide (n = 1)], []] : List (List (Nat → Bool)))) 0 = true := by
  have h := or_not_unconstrained_identity ([[fun n => decide (n = 1)], []] : List (List (Nat → Bool)))
    ⟨[], by simp⟩
  exact ⟨h.1, h.2.1 0⟩

/-- C4: when the join-based statement of a find or count fails, the provider
falls back exactly once — the original request is delegated to the non-join
base provider (inside a rewrite/restore bracket for find, directly for
count), the trace contains exactly one base call, and a failure of the
fallback itself is returned to the caller unchanged. -/
theorem single_fallback_on_execution_failure {E A : Type} (e e2 : E)
    (baseRes baseCnt : Except E A) (hasJoinRefs : Bool) :
    findFlow false true hasJoinRefs (Except.error e) baseRes
      = (baseRes, [.joinFind, .cleanRefs, .baseFind, .restoreRefs])
    ∧ countFlow false true (Except.error e) baseCnt = (baseCnt, [.joinCount, .baseCount])
    ∧ (findFlow false true hasJoinRefs (Except.error e) baseRes).2.count .baseFind = 1
    ∧ (countFlow false true (Except.error e) baseCnt).2.count .baseCount = 1
    ∧ (findFlow false true hasJoinRefs (Except.error e) (Except.error e2 : Except E A)).1
        = Except.error e2
    ∧ (countFlow false true (Except.error e) (Except.error e2 : Except E A)).1
        = Except.error e2 :=
  ⟨rfl, rfl, rfl, rfl, rfl, rfl⟩

/-- C1 (divergence at the failing input): a plan with a nested join under
relation `a` (aliases `join_a`, `join_a_b`), applied to a row whose `join_a`
and `join_a_b` column groups are entirely null, assembles `a` as the object
`{ b: null }` — an object whose fields are all null — although `a`'s own
column group is all-null and `a` had first correctly been set to the
explicit `null`: the nested write at lines 1456-1466 replaces the falsy
parent with a fresh `{}`. -/
theorem mapJoinedResults_nested_null_parent_divergence :
    mapJoinedResultsRow
      [(("id".data), some ("1".data)), (("join_a__x".data), none), (("join_a_b__y".data), none)]
      [⟨"a".data, "join_a".data⟩, ⟨"a_b".data, "join_a_b".data⟩]
      = some [(("id".data), JVal.prim ("1".data)),
              (("a".data), JVal.vobj [(("b".data), JVal.vnull)])]
    ∧ JVal.vobj [(("b".data), JVal.vnull)] ≠ JVal.vnull := by
  refine ⟨rfl, ?_⟩
  intro h
  exact JVal.noConfusion h

/-- Auxiliary for C5: rewriting does not change the field keys. -/
theorem cleanJoinReferences_keys (tn ek : Str) :
    ∀ fields : List EntityFieldState,
      (cleanJoinReferences tn ek fields).1.map EntityFieldState.key
        = fields.map EntityFieldState.key := by
  intro fields
  induction fields with
  | nil => rfl
  | cons f rest ih =>
    cases hs : f.sqlExpression with
    | none => simpa [cleanJoinReferences, hs] using ih
    | some d =>
      by_cases hr : shouldRewriteExpression tn ek d.evalText
      · simpa [cleanJoinReferences, hs, hr] using ih
      · simpa [cleanJoinReferences, hs, hr] using ih

/-- Auxiliary for C5: every saved key is a key of the input fields. -/
theorem cleanJoinReferences_saved_keys (tn ek : Str) :
    ∀ (fields : List EntityFieldState) (kd : Str × SqlExpressionDef),
      kd ∈ (cleanJoinReferences tn ek fields).2 →
        kd.1 ∈ fields.map EntityFieldState.key := by
  intro fields
  induction fields with
  | nil => intro kd h; simp [cleanJoinReferences] at h
  | cons f rest ih =>
    intro kd h
    cases hs : f.sqlExpression with
    | none =>
      rw [show cleanJoinReferences tn ek (f :: rest)
          = (f :: (cleanJoinReferences tn ek rest).1, (cleanJoinReferences tn ek rest).2) by
        simp [cleanJoinReferences, hs]] at h
      exact List.mem_cons_of_mem _ (ih kd h)
    | some d =>
      by_cases hr : shouldRewriteExpression tn ek d.evalText
      · rw [show cleanJoinReferences tn ek (f :: rest)
            = (⟨f.key, some (.degradedToSubquery d)⟩ :: (cleanJoinReferences tn ek rest).1,
               (f.key, d) :: (cleanJoinReferences tn ek rest).2) by
          simp [cleanJoinReferences, hs, hr]] at h
        rcases List.mem_cons.mp h with h1 | h2
        · rw [h1]; exact List.mem_cons_self _ _
        · exact List.mem_cons_of_mem _ (ih kd h2)
      · rw [show cleanJoinReferences tn ek (f :: rest)
            = (f :: (cleanJoinReferences tn ek rest).1, (cleanJoinReferences tn ek rest).2) by
          simp [cleanJoinReferences, hs, hr]] at h
        exact List.mem_cons_of_mem _ (ih kd h)

/-- Auxiliary for C5: assigning a key that no field carries is a no-op. -/
theorem setFieldSqlExpression_absent (fields : List EntityFieldState) (k : Str)
    (v : SqlExpressionDef) (h : k ∉ fields.map EntityFieldState.key) :
    setFieldSqlExpression fields k v = fields := by
  induction fields with
  | nil => rfl
  | cons f rest ih =>
    have h1 : ¬ f.key = k := by
      intro he; exact h (by simp [he.symm])
    have h2 : k ∉ rest.map EntityFieldState.key := by
      intro hm; exact h (List.mem_cons_of_mem _ hm)
    have htail := ih h2
    simp only [setFieldSqlExpression, List.map_cons, if_neg h1]
    simp only [setFieldSqlExpression] at htail
    rw [htail]

/-- Auxiliary for C5: assigning a key hits the head field carrying it. -/
theorem setFieldSqlExpression_cons_eq (k : Str) (s : Option SqlExpressionDef)
    (v : SqlExpressionDef) (fields : List EntityFieldState) :
    setFieldSqlExpression (⟨k, s⟩ :: fields) k v
      = ⟨k, some v⟩ :: setFieldSqlExpression fields k v := by
  simp [setFieldSqlExpression]

/-- Auxiliary for C5: restoring keys that all differ from the head field's
key leaves the head untouched. -/
theorem restoreOriginalSqlExpressions_cons (g : EntityFieldState)
    (fields : List EntityFieldState) :
    ∀ saved : List (Str × SqlExpressionDef),
      (∀ kd ∈ saved, kd.1 ≠ g.key) →
      restoreOriginalSqlExpressions (g :: fields) saved
        = g :: restoreOriginalSqlExpressions fields saved := by
  intro saved
  induction saved generalizing fields with
  | nil => intro _; rfl
  | cons kd rest ih =>
    intro h
    have hk : ¬ g.key = kd.1 := fun he => (h kd (List.mem_cons_self _ _)) he.symm
    have : setFieldSqlExpression (g :: fields) kd.1 kd.2
        = g :: setFieldSqlExpression fields kd.1 kd.2 := by
      simp [setFieldSqlExpression, hk]
    rw [restoreOriginalSqlExpressions, this, restoreOriginalSqlExpressions]
    exact ih _ (fun x hx => h x (List.mem_cons_of_mem _ hx))

/-- Auxiliary for C5: with pairwise-distinct field keys, restoring the saved
originals over the rewritten fields reproduces the input exactly. -/
theorem restore_clean_roundtrip (tn ek : Str) :
    ∀ fields : List EntityFieldState,
      (fields.map EntityFieldState.key).Nodup →
      restoreOriginalSqlExpressions (cleanJoinReferences tn ek fields).1
        (cleanJoinReferences tn ek fields).2 = fields := by
  intro fields
  induction fields with
  | nil => intro _; rfl
  | cons f rest ih =>
    intro hnd
    have hnd' : (rest.map EntityFieldState.key).Nodup := (List.nodup_cons.mp hnd).2
    have hfk : f.key ∉ rest.map EntityFieldState.key := by
      simpa using (List.nodup_cons.mp hnd).1
    have hsaved : ∀ kd ∈ (cleanJoinReferences tn ek rest).2, kd.1 ≠ f.key := by
      intro kd hkd he
      exact hfk (he ▸ cleanJoinReferences_saved_keys tn ek rest kd hkd)
    cases hs : f.sqlExpression with
    | none =>
      rw [show cleanJoinReferences tn ek (f :: rest)
          = (f :: (cleanJoinReferences tn ek rest).1, (cleanJoinReferences tn ek rest).2) by
        simp [cleanJoinReferences, hs]]
      rw [restoreOriginalSqlExpressions_cons f _ _ hsaved, ih hnd']
    | some d =>
      by_cases hr : shouldRewriteExpression tn ek d.evalText
      · rw [show cleanJoinReferences tn ek (f :: rest)
            = (⟨f.key, some (.degradedToSubquery d)⟩ :: (cleanJoinReferences tn ek rest).1,
               (f.key, d) :: (cleanJoinReferences tn ek rest).2) by
          simp [cleanJoinReferences, hs, hr]]
        have habs : f.key ∉ (cleanJoinReferences tn ek rest).1.map EntityFieldState.key := by
          rw [cleanJoinReferences_keys]; exact hfk
        have hf : (⟨f.key, some d⟩ : EntityFieldState) = f := by
          cases f with
          | mk k s => simp only [EntityFieldState.key]; rw [← hs]
        rw [restoreOriginalSqlExpressions, setFieldSqlExpression_cons_eq,
          setFieldSqlExpression_absent _ _ _ habs, hf,
          restoreOriginalSqlExpressions_cons f _ _ hsaved, ih hnd']
      · rw [show cleanJoinReferences tn ek (f :: rest)
            = (f :: (cleanJoinReferences tn ek rest).1, (cleanJoinReferences tn ek rest).2) by
          simp [cleanJoinReferences, hs, hr]]
        rw [restoreOriginalSqlExpressions_cons f _ _ hsaved, ih hnd']

/-- C5: for a degraded find and for every write operation, the
`sqlExpression` definitions temporarily rewritten on the shared entity
metadata are restored to their original values before the call returns — the
restore runs in the `finally` block, so the shared metadata ends identical
to its initial state whether the delegated call succeeds or throws, and the
delegate's outcome (value or error) is returned unchanged. -/
theorem transient_degradation_restores_metadata {E A : Type} (tableName entityKey : Str)
    (fields : List EntityFieldState) (delegate : Except E A)
    (hkeys : (fields.map EntityFieldState.key).Nodup) :
    (withTransientDegradation tableName entityKey fields delegate).2 = fields
    ∧ (withTransientDegradation tableName entityKey fields delegate).1 = delegate :=
  ⟨restore_clean_roundtrip tableName entityKey fields hkeys, rfl⟩

/-- Witness for C5: a throwing delegate over an entity with one `@JOIN:`
virtual field, one table-qualified expression field and one plain field. -/
theorem transient_degradation_restores_metadata_witness :
    (withTransientDegradation ("Orders".data) ("Order".data)
      [⟨"customerName".data, some (.defn ("@JOIN:customer.name".data))⟩,
       ⟨"total".data, some (.defn ("Orders.Amount + 1".data))⟩,
       ⟨"id".data, none⟩]
      (Except.error "delegate failed" : Except String Nat)).2
      = [⟨"customerName".data, some (.defn ("@JOIN:customer.name".data))⟩,
         ⟨"total".data, some (.defn ("Orders.Amount + 1".data))⟩,
         ⟨"id".data, none⟩]
    ∧ (withTransientDegradation ("Orders".data) ("Order".data)
      [⟨"customerName".data, some (.defn ("@JOIN:customer.name".data))⟩,
       ⟨"total".data, some (.defn ("Orders.Amount + 1".data))⟩,
       ⟨"id".data, none⟩]
      (Except.error "delegate failed" : Except String Nat)).1
      = Except.error "delegate failed" :=
  transient_degradation_restores_metadata ("Orders".data) ("Order".data) _ _ (by decide)

/-- Auxiliary for C9: the fallback insert projects exactly the writable,
defined columns — a pair is in the payload iff some field is neither a server
expression nor read-only, its key is present in the input data with that
value, and the pair's column is that field's db name. -/
theorem mem_fallbackInsertPayload (fields : List WriteFieldMeta) (data : List (Str × Str))
    (cv : Str × Str) :
    cv ∈ fallbackInsertPayload fields data ↔
      ∃ f ∈ fields, f.isServerExpression = false ∧ f.dbReadOnly = false
        ∧ data.lookup f.key = some cv.2 ∧ cv.1 = f.dbName := by
  unfold fallbackInsertPayload
  rw [List.mem_filterMap]
  constructor
  · rintro ⟨f, hf, heq⟩
    cases h1 : f.isServerExpression with
    | true => rw [h1] at heq; simp at heq
    | false =>
      cases h2 : f.dbReadOnly with
      | true => rw [h1, h2] at heq; simp at heq
      | false =>
        rw [h1, h2] at heq
        simp only [Bool.false_eq_true, if_false] at heq
        rw [Option.map_eq_some'] at heq
        obtain ⟨v, hv, hpair⟩ := heq
        subst hpair
        exact ⟨f, hf, h1, h2, hv, rfl⟩
  · rintro ⟨f, hf, h1, h2, hl, hc⟩
    refine ⟨f, hf, ?_⟩
    rw [h1, h2]
    simp only [Bool.false_eq_true, if_false, hl, Option.map_some']
    cases cv with
    | mk a b => simp only at hc ⊢; rw [hc]

/-- C9: on MSSQL, an insert failing with an error matching the fixed
trigger/OUTPUT-clause phrase set triggers exactly one fallback — re-issue the
insert without requesting the key, projecting only writable defined columns,
query `SCOPE_IDENTITY()` on the same connection, throw a distinguishable
error (itself never classified as a trigger error) when no key comes back,
and re-fetch the row by primary key otherwise; a failure not matching the
phrases propagates unchanged with no fallback steps. -/
theorem mssql_trigger_insert_fallback {A : Type} (msg : Str) (fields : List WriteFieldMeta)
    (data : List (Str × Str)) (findById : Nat → Option A) (newId : Nat) :
    (looksLikeTriggerOutputError msg = false →
      safeInsert (Except.error msg) fields data (some newId) findById
        = (Except.error msg, [.origInsert])
      ∧ safeInsert (Except.error msg) fields data none findById
        = (Except.error msg, [.origInsert]))
    ∧ (looksLikeTriggerOutputError msg = true →
      safeInsert (Except.error msg) fields data none findById
        = (Except.error scopeIdentityFallbackMessage,
           [.origInsert, .fallbackInsertWithoutOutput (fallbackInsertPayload fields data),
            .scopeIdentityQuery])
      ∧ safeInsert (Except.error msg) fields data (some newId) findById
        = (Except.ok (findById newId),
           [.origInsert, .fallbackInsertWithoutOutput (fallbackInsertPayload fields data),
            .scopeIdentityQuery, .refetchById newId])
      ∧ msg ≠ scopeIdentityFallbackMessage)
    ∧ (∀ cv : Str × Str, cv ∈ fallbackInsertPayload fields data ↔
        ∃ f ∈ fields, f.isServerExpression = false ∧ f.dbReadOnly = false
          ∧ data.lookup f.key = some cv.2 ∧ cv.1 = f.dbName)
    ∧ looksLikeTriggerOutputError scopeIdentityFallbackMessage = false := by
  have hscope : looksLikeTriggerOutputError scopeIdentityFallbackMessage = false := by decide
  refine ⟨?_, ?_, fun cv => mem_fallbackInsertPayload fields data cv, hscope⟩
  · intro h
    constructor
    · simp [safeInsert, h]
    · simp [safeInsert, h]
  · intro h
    refine ⟨by simp [safeInsert, h], by simp [safeInsert, h], ?_⟩
    intro he
    rw [he, hscope] at h
    exact Bool.false_ne_true h

/-- Witness for C9 at a concrete trigger error, a non-matching error, and a
two-field entity with one read-only column. -/
theorem mssql_trigger_insert_fallback_witness :
    safeInsert (Except.error ("Cannot use the OUTPUT clause with triggers".data))
      [⟨"id".data, "ID".data, false, true⟩, ⟨"name".data, "Name".data, false, false⟩]
      [("name".data, "Acme".data)] (some 7) (fun i => some i)
      = (Except.ok (some 7),
         [.origInsert, .fallbackInsertWithoutOutput [("Name".data, "Acme".data)],
          .scopeIdentityQuery, .refetchById 7])
    ∧ safeInsert (Except.error ("connection reset".data))
      [⟨"id".data, "ID".data, false, true⟩, ⟨"name".data, "Name".data, false, false⟩]
      [("name".data, "Acme".data)] (some 7) (fun i => some (i : Nat))
      = (Except.error ("connection reset".data), [.origInsert]) := by
  have h1 := (mssql_trigger_insert_fallback
    ("Cannot use the OUTPUT clause with triggers".data)
    [⟨"id".data, "ID".data, false, true⟩, ⟨"name".data, "Name".data, false, false⟩]
    [("name".data, "Acme".data)] (fun i => some i) 7).2.1 (by decide)
  have h2 := (mssql_trigger_insert_fallback
    ("connection reset".data)
    [⟨"id".data, "ID".data, false, true⟩, ⟨"name".data, "Name".data, false, false⟩]
    [("name".data, "Acme".data)] (fun i => some (i : Nat)) 7).1 (by decide)
  refine ⟨?_, h2.1⟩
  have := h1.2.1
  rw [this]
  rfl

/-- Auxiliary for C3: splitting at a separator character absent from both
prefixes is unambiguous. -/
theorem append_sep_inj : ∀ (a b x y : Str), ('_' ∉ a) → ('_' ∉ b) →
    a ++ '_' :: x = b ++ '_' :: y → a = b ∧ x = y := by
  intro a
  induction a with
  | nil =>
    intro b x y _ hb h
    cases b with
    | nil => simpa using h
    | cons c bs =>
      exfalso
      simp only [List.nil_append, List.cons_append, List.cons.injEq] at h
      exact hb (by rw [← h.1]; exact List.mem_cons_self _ _)
  | cons c as ih =>
    intro b x y ha hb h
    cases b with
    | nil =>
      exfalso
      simp only [List.cons_append, List.nil_append, List.cons.injEq] at h
      exact ha (by rw [h.1]; exact List.mem_cons_self _ _)
    | cons e bs =>
      simp only [List.cons_append, List.cons.injEq] at h
      have ha' : '_' ∉ as := fun hm => ha (List.mem_cons_of_mem _ hm)
      have hb' : '_' ∉ bs := fun hm => hb (List.mem_cons_of_mem _ hm)
      obtain ⟨h1, h2⟩ := ih bs x y ha' hb' h.2
      exact ⟨by rw [h.1, h1], h2⟩

/-- Auxiliary for C3: joining with `_` is injective on nonempty path lists
whose segments are free of `_`. -/
theorem joinUnderscore_inj : ∀ (p q : List Str), (∀ s ∈ p, ('_' : Char) ∉ s) →
    (∀ s ∈ q, ('_' : Char) ∉ s) → p ≠ [] → q ≠ [] →
    joinUnderscore p = joinUnderscore q → p = q := by
  intro p
  induction p with
  | nil => intro q _ _ hp; exact absurd rfl hp
  | cons a p' ih =>
    intro q hp hq _ hqne h
    cases q with
    | nil => exact absurd rfl hqne
    | cons b q' =>
      cases p' with
      | nil =>
        cases q' with
        | nil => simpa [joinUnderscore] using h
        | cons c q'' =>
          exfalso
          have h' : a = b ++ '_' :: joinUnderscore (c :: q'') := h
          exact hp a (List.mem_cons_self _ _)
            (by rw [h']; exact List.mem_append_right _ (List.mem_cons_self _ _))
      | cons a2 p'' =>
        cases q' with
        | nil =>
          exfalso
          have h' : a ++ '_' :: joinUnderscore (a2 :: p'') = b := h
          exact hq b (List.mem_cons_self _ _)
            (by rw [← h']; exact List.mem_append_right _ (List.mem_cons_self _ _))
        | cons b2 q'' =>
          have h' : a ++ '_' :: joinUnderscore (a2 :: p'')
              = b ++ '_' :: joinUnderscore (b2 :: q'') := h
          obtain ⟨h1, h2⟩ := append_sep_inj _ _ _ _
            (hp a (List.mem_cons_self _ _)) (hq b (List.mem_cons_self _ _)) h'
          have h3 := ih (b2 :: q'')
            (fun s hs => hp s (List.mem_cons_of_mem _ hs))
            (fun s hs => hq s (List.mem_cons_of_mem _ hs))
            (List.cons_ne_nil _ _) (List.cons_ne_nil _ _) h2
          rw [h1, h3]

mutual
/-- Auxiliary for C3/C10: `processRelation` only appends join nodes and
clauses, and every clause it appends is a LEFT JOIN. -/
theorem processRelation_extends (t : RelTree) (pa pre : Str)
    (acc : List JoinNodeRec × List JoinClause) :
    ∃ addedN addedC,
      processRelation t pa pre acc = (acc.1 ++ addedN, acc.2 ++ addedC)
      ∧ ∀ c ∈ addedC, c.kind = JoinKind.leftJoin := by
  cases t with
  | node fk fkdb iddb children =>
    cases hex : acc.1.any (fun j => j.joinAlias = pathJoinAlias pre fk) with
    | true =>
      simp only [processRelation, hex, if_true]
      exact processRelations_extends children _ _ _
    | false =>
      simp only [processRelation, hex, Bool.false_eq_true, if_false]
      obtain ⟨n2, c2, heq, hc2⟩ := processRelations_extends children
        (pathJoinAlias pre fk) (pathFullKey pre fk)
        (acc.1 ++ [⟨pathFullKey pre fk, pathJoinAlias pre fk⟩],
         acc.2 ++ [⟨.leftJoin, colD pa fkdb, colD (pathJoinAlias pre fk) iddb⟩])
      refine ⟨⟨pathFullKey pre fk, pathJoinAlias pre fk⟩ :: n2,
        ⟨.leftJoin, colD pa fkdb, colD (pathJoinAlias pre fk) iddb⟩ :: c2, ?_, ?_⟩
      · rw [heq]; simp
      · intro c hc
        rcases List.mem_cons.mp hc with h1 | h2
        · rw [h1]
        · exact hc2 c h2

/-- List version of `processRelation_extends`. -/
theorem processRelations_extends (ts : List RelTree) (pa pre : Str)
    (acc : List JoinNodeRec × List JoinClause) :
    ∃ addedN addedC,
      processRelations ts pa pre acc = (acc.1 ++ addedN, acc.2 ++ addedC)
      ∧ ∀ c ∈ addedC, c.kind = JoinKind.leftJoin := by
  cases ts with
  | nil => exact ⟨[], [], by simp [processRelations], by simp⟩
  | cons t rest =>
    rw [processRelations]
    obtain ⟨n1, c1, heq1, hc1⟩ := processRelation_extends t pa pre acc
    obtain ⟨n2, c2, heq2, hc2⟩ := processRelations_extends rest pa pre (processRelation t pa pre acc)
    refine ⟨n1 ++ n2, c1 ++ c2, ?_, ?_⟩
    · rw [heq2, heq1]; simp
    · intro c hc
      rcases List.mem_append.mp hc with h1 | h2
      · exact hc1 c h1
      · exact hc2 c h2
end

/-- Auxiliary for C3: aliases already planned survive `processRelation`. -/
theorem processRelation_alias_mono (t : RelTree) (pa pre : Str)
    (acc : List JoinNodeRec × List JoinClause) (a : Str)
    (ha : a ∈ acc.1.map JoinNodeRec.joinAlias) :
    a ∈ (processRelation t pa pre acc).1.map JoinNodeRec.joinAlias := by
  obtain ⟨n, c, heq, _⟩ := processRelation_extends t pa pre acc
  rw [heq]
  simp only [List.map_append]
  exact List.mem_append_left _ ha

/-- Auxiliary for C3: list version of `processRelation_alias_mono`. -/
theorem processRelations_alias_mono (ts : List RelTree) (pa pre : Str)
    (acc : List JoinNodeRec × List JoinClause) (a : Str)
    (ha : a ∈ acc.1.map JoinNodeRec.joinAlias) :
    a ∈ (processRelations ts pa pre acc).1.map JoinNodeRec.joinAlias := by
  obtain ⟨n, c, heq, _⟩ := processRelations_extends ts pa pre acc
  rw [heq]
  simp only [List.map_append]
  exact List.mem_append_left _ ha

mutual
/-- Auxiliary for C3: after processing, every alias of the subtree is
planned. -/
theorem processRelation_alias_present (t : RelTree) (pa pre : Str)
    (acc : List JoinNodeRec × List JoinClause) (a : Str)
    (ha : a ∈ subtreeAliases t pre) :
    a ∈ (processRelation t pa pre acc).1.map JoinNodeRec.joinAlias := by
  cases t with
  | node fk fkdb iddb children =>
    rw [subtreeAliases] at ha
    rcases List.mem_cons.mp ha with h1 | h2
    · cases hex : acc.1.any (fun j => j.joinAlias = pathJoinAlias pre fk) with
      | true =>
        simp only [processRelation, hex, if_true]
        apply processRelations_alias_mono
        obtain ⟨j, hj, hje⟩ := List.any_eq_true.mp hex
        rw [h1]
        exact List.mem_map.mpr ⟨j, hj, of_decide_eq_true hje⟩
      | false =>
        simp only [processRelation, hex, Bool.false_eq_true, if_false]
        apply processRelations_alias_mono
        simp only [List.map_append]
        apply List.mem_append_right
        simp [h1]
    · simp only [processRelation]
      exact processRelations_alias_present children _ _ _ a h2

/-- List version of `processRelation_alias_present`. -/
theorem processRelations_alias_present (ts : List RelTree) (pa pre : Str)
    (acc : List JoinNodeRec × List JoinClause) (a : Str)
    (ha : a ∈ subtreeAliasesList ts pre) :
    a ∈ (processRelations ts pa pre acc).1.map JoinNodeRec.joinAlias := by
  cases ts with
  | nil => simp [subtreeAliasesList] at ha
  | cons t rest =>
    rw [processRelations]
    rw [subtreeAliasesList] at ha
    rcases List.mem_append.mp ha with h1 | h2
    · exact processRelations_alias_mono rest _ _ _ a (processRelation_alias_present t _ _ _ a h1)
    · exact processRelations_alias_present rest _ _ _ a h2
end

mutual
/-- Auxiliary for C3: if every alias the subtree would claim is already
planned, `processRelation` is the identity on the accumulator. -/
theorem processRelation_skip (t : RelTree) (pa pre : Str)
    (acc : List JoinNodeRec × List JoinClause)
    (h : ∀ a ∈ subtreeAliases t pre, a ∈ acc.1.map JoinNodeRec.joinAlias) :
    processRelation t pa pre acc = acc := by
  cases t with
  | node fk fkdb iddb children =>
    have hcur := h _ (by rw [subtreeAliases]; exact List.mem_cons_self _ _)
    obtain ⟨j, hj, hje⟩ := List.mem_map.mp hcur
    have hex : (acc.1.any (fun j => j.joinAlias = pathJoinAlias pre fk)) = true :=
      List.any_eq_true.mpr ⟨j, hj, decide_eq_true hje⟩
    simp only [processRelation, hex, if_true]
    exact processRelations_skip children _ _ acc
      (fun a ha => h a (by rw [subtreeAliases]; exact List.mem_cons_of_mem _ ha))

/-- List version of `processRelation_skip`. -/
theorem processRelations_skip (ts : List RelTree) (pa pre : Str)
    (acc : List JoinNodeRec × List JoinClause)
    (h : ∀ a ∈ subtreeAliasesList ts pre, a ∈ acc.1.map JoinNodeRec.joinAlias) :
    processRelations ts pa pre acc = acc := by
  cases ts with
  | nil => rfl
  | cons t rest =>
    rw [processRelations]
    have h1 : processRelation t pa pre acc = acc :=
      processRelation_skip t pa pre acc
        (fun a ha => h a (by rw [subtreeAliasesList]; exact List.mem_append_left _ ha))
    rw [h1]
    exact processRelations_skip rest _ _ acc
      (fun a ha => h a (by rw [subtreeAliasesList]; exact List.mem_append_right _ ha))
end

mutual
/-- Auxiliary for C3: planning preserves pairwise-distinct aliases, so one
alias never names two JoinNodes. -/
theorem processRelation_alias_nodup (t : RelTree) (pa pre : Str)
    (acc : List JoinNodeRec × List JoinClause)
    (h : (acc.1.map JoinNodeRec.joinAlias).Nodup) :
    ((processRelation t pa pre acc).1.map JoinNodeRec.joinAlias).Nodup := by
  cases t with
  | node fk fkdb iddb children =>
    cases hex : acc.1.any (fun j => j.joinAlias = pathJoinAlias pre fk) with
    | true =>
      simp only [processRelation, hex, if_true]
      exact processRelations_alias_nodup children _ _ _ h
    | false =>
      simp only [processRelation, hex, Bool.false_eq_true, if_false]
      apply processRelations_alias_nodup
      simp only [List.map_append]
      rw [List.nodup_append]
      refine ⟨h, List.nodup_singleton _, ?_⟩
      intro a ha hb
      rw [List.mem_singleton.mp hb] at ha
      obtain ⟨j, hj, hje⟩ := List.mem_map.mp ha
      rw [List.any_eq_true.mpr ⟨j, hj, decide_eq_true hje⟩] at hex
      exact Bool.noConfusion hex

/-- List version of `processRelation_alias_nodup`. -/
theorem processRelations_alias_nodup (ts : List RelTree) (pa pre : Str)
    (acc : List JoinNodeRec × List JoinClause)
    (h : (acc.1.map JoinNodeRec.joinAlias).Nodup) :
    ((processRelations ts pa pre acc).1.map JoinNodeRec.joinAlias).Nodup := by
  cases ts with
  | nil => exact h
  | cons t rest =>
    rw [processRelations]
    exact processRelations_alias_nodup rest _ _ _ (processRelation_alias_nodup t _ _ _ h)
end

/-- Auxiliary for C3: appending a segment to a nonempty path extends its
underscore-join by one separator and the segment. -/
theorem joinUnderscore_append_singleton :
    ∀ (anc : List Str) (k : Str), anc ≠ [] →
      joinUnderscore (anc ++ [k]) = joinUnderscore anc ++ '_' :: k := by
  intro anc
  induction anc with
  | nil => intro k h; exact absurd rfl h
  | cons a rest ih =>
    intro k _
    cases rest with
    | nil => rfl
    | cons a2 rest2 =>
      have h2 := ih k (List.cons_ne_nil _ _)
      show a ++ '_' :: joinUnderscore ((a2 :: rest2) ++ [k])
          = (a ++ '_' :: joinUnderscore (a2 :: rest2)) ++ '_' :: k
      rw [h2]
      simp

/-- C3 (corrected, amended): the join alias of a relation path is the pure
function `join_` plus the underscore-joined path — a node planned under
ancestor prefix `anc` with key `k` receives `aliasOfPath (anc ++ [k])`; two
different paths receive different aliases provided no segment contains an
underscore (see `alias_collision_counterexample` for the collision the claim
as stated misses); and re-processing an identical subtree is idempotent: the
accumulated plan is unchanged, and a plan never holds two JoinNodes with the
same alias. -/
theorem alias_stability (p q : List Str)
    (hp : ∀ s ∈ p, ('_' : Char) ∉ s) (hq : ∀ s ∈ q, ('_' : Char) ∉ s)
    (hpne : p ≠ []) (hqne : q ≠ []) (halias : aliasOfPath p = aliasOfPath q) :
    p = q
    ∧ (∀ k : Str, pathJoinAlias [] k = aliasOfPath [k])
    ∧ (∀ (anc : List Str) (k : Str), joinUnderscore anc ≠ [] →
        pathJoinAlias (joinUnderscore anc) k = aliasOfPath (anc ++ [k]))
    ∧ (∀ (t : RelTree) (pa pre : Str) (acc : List JoinNodeRec × List JoinClause),
        processRelation t pa pre (processRelation t pa pre acc) = processRelation t pa pre acc)
    ∧ (∀ (t : RelTree) (pa pre : Str) (acc : List JoinNodeRec × List JoinClause),
        (acc.1.map JoinNodeRec.joinAlias).Nodup →
        ((processRelation t pa pre acc).1.map JoinNodeRec.joinAlias).Nodup) := by
  refine ⟨?_, fun k => rfl, ?_, ?_, ?_⟩
  · have h1 : joinUnderscore p = joinUnderscore q := by
      have := halias
      unfold aliasOfPath at this
      exact List.append_cancel_left this
    exact joinUnderscore_inj p q hp hq hpne hqne h1
  · intro anc k hne
    have hanc : anc ≠ [] := by
      intro he; rw [he] at hne; exact hne rfl
    unfold pathJoinAlias aliasOfPath
    rw [joinUnderscore_append_singleton anc k hanc]
    have hno : (joinUnderscore anc).isEmpty = false := by
      cases he : joinUnderscore anc with
      | nil => exact absurd he hne
      | cons c cs => rfl
    rw [hno]
    simp
  · intro t pa pre acc
    exact processRelation_skip t pa pre _
      (fun a ha => processRelation_alias_present t pa pre acc a ha)
  · intro t pa pre acc h
    exact processRelation_alias_nodup t pa pre acc h

/-- C3 counterexample: the distinct relation paths `["a","b"]` and `["a_b"]`
produce the same alias `join_a_b`, and planning them together records only
one JoinNode for that alias — the second, different path is silently
conflated with the first instead of receiving its own alias. -/
theorem alias_collision_counterexample :
    aliasOfPath [("a".data), ("b".data)] = aliasOfPath [("a_b".data)]
    ∧ ([("a".data), ("b".data)] : List Str) ≠ [("a_b".data)]
    ∧ (processRelations
        [RelTree.node ("a".data) ("aId".data) ("id".data)
           [RelTree.node ("b".data) ("bId".data) ("id".data) []],
         RelTree.node ("a_b".data) ("abId".data) ("id".data) []]
        ("main".data) [] ([], [])).1
      = [⟨"a".data, "join_a".data⟩, ⟨"a_b".data, "join_a_b".data⟩] := by
  refine ⟨rfl, by decide, rfl⟩

/-- Witness for C3 at the path `["x"]` and a concrete one-node tree. -/
theorem alias_stability_witness :
    ([("x".data)] : List Str) = [("x".data)]
    ∧ processRelation (RelTree.node ("x".data) ("xId".data) ("id".data) [])
        ("main".data) []
        (processRelation (RelTree.node ("x".data) ("xId".data) ("id".data) [])
          ("main".data) [] ([], []))
      = processRelation (RelTree.node ("x".data) ("xId".data) ("id".data) [])
          ("main".data) [] ([], []) := by
  have h := alias_stability [("x".data)] [("x".data)]
    (by decide) (by decide) (by decide) (by decide) rfl
  exact ⟨h.1, h.2.2.2.1 _ _ _ _⟩

/-- C8: converting an expression token to subquery form never raises an
error — the conversion is a total function whose failure branches all
produce the SQL literal `NULL`: a token with fewer than two dot-segments
resolves to `NULL`, and a token whose relation chain resolves but whose
target field cannot be found on the related entity resolves to `NULL` as
well. -/
theorem expression_token_null_degradation (d : Dialect) (ent : EntityMeta)
    (tableAlias : Option Str) (fullPath relationKey fieldName mainTableAlias : Str)
    (fkField : FieldMetaM) (ri : RelInfoM) (relatedEntity : EntityMeta)
    (hshort : (splitOnChar '.' fullPath).length < 2)
    (hres : simpleHopResolution ent relationKey = some (fkField, ri, relatedEntity))
    (hmiss : relatedEntity.findFieldByKeyOrDb fieldName = none) :
    convertJoinTokenToSubquery d ent fullPath tableAlias = "NULL".data
    ∧ simpleJoinToSubquery d ent relationKey fieldName mainTableAlias = "NULL".data := by
  constructor
  · simp only [convertJoinTokenToSubquery]
    rw [if_pos hshort]
  · simp [simpleJoinToSubquery, hres, hmiss]

/-- Witness for C8: the dot-less token `name` resolves to `NULL`, and the
resolving relation `customer` with the unknown target field `zzz` resolves
to `NULL`. -/
theorem expression_token_null_degradation_witness :
    convertJoinTokenToSubquery Dialect.mssql orderMeta ("name".data) none = "NULL".data
    ∧ simpleJoinToSubquery Dialect.mssql orderMeta ("customer".data) ("zzz".data)
        ("main".data) = "NULL".data :=
  expression_token_null_degradation Dialect.mssql orderMeta none ("name".data)
    ("customer".data) ("zzz".data) ("main".data)
    (FieldMetaM.mk ("customerId".data) none
      (some (RelInfoM.mk (some ("customerId".data)) companyMeta)))
    (RelInfoM.mk (some ("customerId".data)) companyMeta) companyMeta
    (by decide) rfl rfl

/-- Auxiliary for C6: one resolved hop yields one hop spec. -/
theorem HopsResolve.length_eq {d : Dialect} :
    ∀ {ent : EntityMeta} {path : List Str} {hops : List HopSpec} {lastEnt : EntityMeta},
      HopsResolve d ent path hops lastEnt → hops.length = path.length := by
  intro ent path hops lastEnt h
  induction h with
  | nil => rfl
  | cons ent relationKey rest fkField relationField ri hops lastEnt hfk hrf hri hrest ih =>
    simpa using ih

/-- Auxiliary for C6: the FROM/JOIN fragment built by the hop loop equals the
spec-side clause at every index. -/
theorem hopJoin_eq_specJoinClause (d : Dialect) (i : Nat) (tableExpr idDb fkDb : Str) :
    (if i = 0 then tableExpr ++ ' ' :: wrapIdentifier d (tAlias i)
     else ("INNER JOIN ".data) ++ tableExpr ++ ' ' :: wrapIdentifier d (tAlias i)
       ++ (" ON ".data) ++ col d (tAlias i) idDb
       ++ (" = ".data) ++ col d (tAlias (i - 1)) fkDb)
    = specJoinClause d i ⟨tableExpr, idDb, fkDb⟩ := by
  by_cases hi : i = 0
  · subst hi; rfl
  · simp [specJoinClause, hi]

/-- Auxiliary for C6: a fully resolving relation path makes the hop loop
return exactly the spec-side clause list, one clause per hop. -/
theorem hopsResolve_nestedHops (d : Dialect)
    {ent : EntityMeta} {path : List Str} {hops : List HopSpec} {lastEnt : EntityMeta}
    (h : HopsResolve d ent path hops lastEnt) :
    ∀ i, nestedHops d ent path i
      = some ((hops.enumFrom i).map (fun p => specJoinClause d p.1 p.2), lastEnt) := by
  induction h with
  | nil ent => intro i; rfl
  | cons ent relationKey rest fkField relationField ri hops lastEnt hfk hrf hri hrest ih =>
    intro i
    simp only [nestedHops, hfk, hrf, hri]
    rw [ih (i + 1)]
    simp only [List.enumFrom, List.map_cons]
    rw [hopJoin_eq_specJoinClause]

/-- C6 counterexample: for the two-hop token `@JOIN:b.c.login` the code
emits ONE flat subquery whose FROM clause chains INNER JOINs — the output
contains a single `SELECT`, not one nested subquery per hop (which would
require at least two). -/
theorem nested_subquery_not_nested_counterexample :
    nestedJoinToSubquery Dialect.mssql aMeta [("b".data), ("c".data)]
        ("login".data) ("main".data)
      = ("(SELECT [t1].[login] FROM [B] [t0] INNER JOIN [C] [t1] ON [t1].[id] = [t0].[cId] WHERE [t0].[id] = [main].[bId])".data)
    ∧ countSub ("SELECT".data)
        (nestedJoinToSubquery Dialect.mssql aMeta [("b".data), ("c".data)]
          ("login".data) ("main".data)) = 1
    ∧ (1 : Nat) < 2 := by
  refine ⟨rfl, rfl, by decide⟩

/-- C6 (corrected, amended): in subquery mode a multi-hop expression token is
synthesized as ONE single correlated subquery whose FROM clause chains one
INNER JOIN per hop: hop 0's table is aliased `t0` and correlated to the
original driving alias through `WHERE t0.<id0> = <alias>.<fk0>`; every
subsequent hop `i` is joined `ON t<i>.<id_i> = t<i-1>.<fk_i>` (the previous
hop's FK column); the final SELECT projects the last hop's target column. -/
theorem nested_subquery_flat_join_shape (d : Dialect) (ent lastEnt : EntityMeta)
    (relationPath : List Str) (fieldName mainTableAlias : Str) (hops : List HopSpec)
    (targetField fk0 rf0 : FieldMetaM) (ri0 : RelInfoM)
    (hres : HopsResolve d ent relationPath hops lastEnt)
    (hne : relationPath ≠ [])
    (htf : lastEnt.findFieldByKeyOrDb fieldName = some targetField)
    (hfk0 : ent.findField ((relationPath.headD []) ++ ("Id".data)) = some fk0)
    (hrf0 : ent.findField (relationPath.headD []) = some rf0)
    (hri0 : rf0.rel = some ri0) :
    nestedJoinToSubquery d ent relationPath fieldName mainTableAlias
      = specNestedSubquery d mainTableAlias hops targetField.dbNameOr
          ri0.target.idDbName fk0.dbNameOr
    ∧ hops.length = relationPath.length := by
  have hlen : hops.length = relationPath.length := hres.length_eq
  refine ⟨?_, hlen⟩
  cases relationPath with
  | nil => exact absurd rfl hne
  | cons k rest =>
    simp only [List.headD_cons] at hfk0 hrf0
    simp only [nestedJoinToSubquery, hopsResolve_nestedHops d hres 0, htf,
      List.head?_cons, hfk0, hrf0, hri0]
    rw [specNestedSubquery, hlen]
    rfl

/-- Witness for C6 at the concrete two-hop chain `A → B → C`. -/
theorem nested_subquery_flat_join_shape_witness :
    nestedJoinToSubquery Dialect.mssql aMeta [("b".data), ("c".data)]
        ("login".data) ("main".data)
      = specNestedSubquery Dialect.mssql ("main".data)
          [⟨"[B]".data, "id".data, "bId".data⟩, ⟨"[C]".data, "id".data, "cId".data⟩]
          ("login".data) ("id".data) ("bId".data)
    ∧ ([(⟨"[B]".data, "id".data, "bId".data⟩ : HopSpec),
        ⟨"[C]".data, "id".data, "cId".data⟩] : List HopSpec).length
      = ([("b".data), ("c".data)] : List Str).length := by
  have hres : HopsResolve Dialect.mssql aMeta [("b".data), ("c".data)]
      [⟨"[B]".data, "id".data, "bId".data⟩, ⟨"[C]".data, "id".data, "cId".data⟩] cMeta :=
    HopsResolve.cons aMeta ("b".data) [("c".data)]
      (FieldMetaM.mk ("bId".data) none (some (RelInfoM.mk (some ("bId".data)) bMeta)))
      (FieldMetaM.mk ("b".data) none (some (RelInfoM.mk (some ("bId".data)) bMeta)))
      (RelInfoM.mk (some ("bId".data)) bMeta) _ cMeta rfl rfl rfl
      (HopsResolve.cons bMeta ("c".data) []
        (FieldMetaM.mk ("cId".data) none (some (RelInfoM.mk (some ("cId".data)) cMeta)))
        (FieldMetaM.mk ("c".data) none (some (RelInfoM.mk (some ("cId".data)) cMeta)))
        (RelInfoM.mk (some ("cId".data)) cMeta) [] cMeta rfl rfl rfl
        (HopsResolve.nil cMeta))
  exact nested_subquery_flat_join_shape Dialect.mssql aMeta cMeta
    [("b".data), ("c".data)] ("login".data) ("main".data)
    [⟨"[B]".data, "id".data, "bId".data⟩, ⟨"[C]".data, "id".data, "cId".data⟩]
    (FieldMetaM.mk ("login".data) none none)
    (FieldMetaM.mk ("bId".data) none (some (RelInfoM.mk (some ("bId".data)) bMeta)))
    (FieldMetaM.mk ("b".data) none (some (RelInfoM.mk (some ("bId".data)) bMeta)))
    (RelInfoM.mk (some ("bId".data)) bMeta)
    hres (by decide) rfl rfl rfl rfl

/-- Auxiliary for C2/C10: uniqueness of the id column survives dropping a
row. -/
theorem uniqueIdCol_tail {tr : DbRow} {ts : List DbRow} {idCol : Str}
    (h : uniqueIdCol (tr :: ts) idCol) : uniqueIdCol ts idCol := by
  unfold uniqueIdCol at h ⊢
  refine List.Nodup.sublist ?_ h
  exact List.Sublist.filterMap _ (List.Sublist.map _ (List.sublist_cons_self _ _))

/-- Auxiliary for C2/C10: under a unique id column, a non-null id value
matching the head row matches no tail row. -/
theorem uniqueIdCol_head_notin {tr : DbRow} {ts : List DbRow} {idCol : Str} {x : Str}
    (h : uniqueIdCol (tr :: ts) idCol) (hh : getColV tr idCol = some x) :
    ∀ tr' ∈ ts, ¬ getColV tr' idCol = some x := by
  unfold uniqueIdCol at h
  simp only [List.map_cons, hh, List.filterMap_cons, id] at h
  intro tr' htr' he
  have hx : x ∈ (ts.map (fun tr => getColV tr idCol)).filterMap id :=
    List.mem_filterMap.mpr ⟨some x, List.mem_map.mpr ⟨tr', htr', he⟩, rfl⟩
  exact (List.nodup_cons.mp h).1 hx

/-- Auxiliary for C2/C10: under a unique id column, any (nullable) foreign
key value matches at most one target row. -/
theorem matchRows_length_le_one :
    ∀ (target : List DbRow) (idCol : Str), uniqueIdCol target idCol →
      ∀ v, (matchRows target idCol v).length ≤ 1 := by
  intro target idCol
  induction target with
  | nil =>
    intro _ v
    cases v <;> simp [matchRows]
  | cons tr ts ih =>
    intro hU v
    cases v with
    | none => simp [matchRows]
    | some x =>
      by_cases hh : getColV tr idCol = some x
      · have hnone := uniqueIdCol_head_notin hU hh
        have hfil : ts.filter (fun tr' => getColV tr' idCol = some x) = [] := by
          rw [List.filter_eq_nil_iff]
          intro a ha
          simp [hnone a ha]
        simp [matchRows, List.filter_cons, hh, hfil]
      · have htail := ih (uniqueIdCol_tail hU) (some x)
        simp only [matchRows] at htail ⊢
        simp [List.filter_cons, hh, htail]

/-- Auxiliary for C2: under a unique id column the LEFT JOIN produces exactly
one output per driving row, and its projected value is exactly the scalar
subquery's value (which never errors). -/
theorem joinMode_eq_subquery_value (target : List DbRow) (fkCol idCol valCol : Str)
    (hU : uniqueIdCol target idCol) (r : DbRow) :
    ∃ v, joinModeValues r target fkCol idCol valCol = [v]
      ∧ scalarSubqueryValue r target fkCol idCol valCol = some v := by
  have hle := matchRows_length_le_one target idCol hU (getColV r fkCol)
  match hm : matchRows target idCol (getColV r fkCol) with
  | [] =>
    refine ⟨none, ?_, ?_⟩ <;>
      simp [joinModeValues, leftJoinOutputs, scalarSubqueryValue, hm]
  | [m] =>
    refine ⟨getColV m valCol, ?_, ?_⟩ <;>
      simp [joinModeValues, leftJoinOutputs, scalarSubqueryValue, hm]
  | a :: b :: l =>
    rw [hm] at hle
    simp at hle

/-- Auxiliary for C2: the WHERE clause selects the same driving rows in JOIN
mode (over the joined row set) and in subquery mode. -/
theorem joinModeSelect_eq_subquerySelect (base target : List DbRow)
    (fkCol idCol valCol : Str) (pred : Option Str → Bool)
    (hU : uniqueIdCol target idCol) :
    joinModeSelect base target fkCol idCol valCol pred
      = subquerySelect base target fkCol idCol valCol pred := by
  induction base with
  | nil => rfl
  | cons r rs ih =>
    obtain ⟨v, hjoin, hsub⟩ := joinMode_eq_subquery_value target fkCol idCol valCol hU r
    simp only [joinModeSelect, subquerySelect] at ih ⊢
    rw [List.flatMap_cons, List.filter_cons, hjoin, hsub]
    by_cases hp : pred v
    · simp [hp, ih]
    · simp [hp, ih]

/-- Auxiliary for C10: one LEFT JOIN step preserves the driving rows
one-to-one when the target's id column is unique. -/
theorem extendRows_map_fst (s : JoinSpecSem) (hU : uniqueIdCol s.target s.idCol) :
    ∀ rows : List (DbRow × List (Option DbRow)),
      (extendRows rows s).map Prod.fst = rows.map Prod.fst := by
  intro rows
  induction rows with
  | nil => rfl
  | cons p ps ih =>
    have hle := matchRows_length_le_one s.target s.idCol hU (getColV p.1 s.fkCol)
    simp only [extendRows, List.flatMap_cons, List.map_append] at ih ⊢
    match hm : matchRows s.target s.idCol (getColV p.1 s.fkCol) with
    | [] => simpa [hm] using ih
    | [m] => simpa [hm] using ih
    | a :: b :: l =>
      rw [hm] at hle
      simp at hle

/-- Auxiliary for C10: a chain of LEFT JOINs preserves the driving rows. -/
theorem leftJoinChain_fold_map_fst :
    ∀ (specs : List JoinSpecSem) (rows : List (DbRow × List (Option DbRow))),
      (∀ s ∈ specs, uniqueIdCol s.target s.idCol) →
      (specs.foldl extendRows rows).map Prod.fst = rows.map Prod.fst := by
  intro specs
  induction specs with
  | nil => intro rows _; rfl
  | cons s rest ih =>
    intro rows h
    rw [List.foldl_cons]
    rw [ih _ (fun s' hs' => h s' (List.mem_cons_of_mem _ hs'))]
    exact extendRows_map_fst s (h s (List.mem_cons_self _ _)) rows

/-- Auxiliary for C10: projecting the driving row commutes with filtering on
a driving-row predicate. -/
theorem map_fst_filter_comm (q : DbRow → Bool) :
    ∀ l : List (DbRow × List (Option DbRow)),
      (l.filter (fun p => q p.1)).map Prod.fst = (l.map Prod.fst).filter q := by
  intro l
  induction l with
  | nil => rfl
  | cons p ps ih =>
    by_cases hq : q p.1
    · simp [List.filter_cons, hq, ih]
    · simp [List.filter_cons, hq, ih]

/-- C2: for a single-hop virtual field, JOIN mode resolves the token to the
qualified column on the matching join alias, subquery mode (no matching
join) resolves it to the correlated scalar subquery over the same target
table, id column and FK column — and against the same data, with the
target's id column unique (a primary key), the two resolutions denote the
same value for every driving row, so filtering by the field selects exactly
the same rows in both modes. -/
theorem join_subquery_mode_equivalence (d : Dialect) (ent : EntityMeta)
    (tableAlias fullPath relationKey fieldName : Str) (vj : ValidJoin)
    (relatedField fkField : FieldMetaM) (ri : RelInfoM)
    (targetRows baseRows : List DbRow) (pred : Option Str → Bool)
    (hparts : splitOnChar '.' fullPath = [relationKey, fieldName])
    (hvj : vj.joinAlias = ("join_".data) ++ relationKey)
    (hrf : vj.relatedEntity.findFieldByKeyOrDb fieldName = some relatedField)
    (hfk : ent.findField (relationKey ++ ("Id".data)) = some fkField)
    (hfkrel : fkField.rel = some ri)
    (hre : ri.target = vj.relatedEntity)
    (hU : uniqueIdCol targetRows vj.relatedEntity.idDbName) :
    getColumnNameForJoinToken d ent [vj] tableAlias fullPath
      = some (colB d vj.joinAlias relatedField.dbNameOr)
    ∧ getColumnNameForJoinToken d ent [] tableAlias fullPath
      = some (normalizeSqlB d (("(SELECT ".data) ++ wrapIdentifierB d relatedField.dbNameOr
          ++ (" FROM ".data) ++ wrapTableNameB d vj.relatedEntity.tableName
          ++ (" WHERE ".data) ++ wrapIdentifierB d vj.relatedEntity.idDbName
          ++ (" = ".data) ++ colB d tableAlias fkField.dbNameOr ++ (")".data)))
    ∧ (∀ r : DbRow, ∃ v,
        joinModeValues r targetRows fkField.dbNameOr vj.relatedEntity.idDbName
            relatedField.dbNameOr = [v]
        ∧ scalarSubqueryValue r targetRows fkField.dbNameOr vj.relatedEntity.idDbName
            relatedField.dbNameOr = some v)
    ∧ joinModeSelect baseRows targetRows fkField.dbNameOr vj.relatedEntity.idDbName
        relatedField.dbNameOr pred
      = subquerySelect baseRows targetRows fkField.dbNameOr vj.relatedEntity.idDbName
          relatedField.dbNameOr pred := by
  have hlast : ([relationKey, fieldName] : List Str).getLastD [] = fieldName := rfl
  have hdrop : ([relationKey, fieldName] : List Str).dropLast = [relationKey] := rfl
  have hjoin1 : joinUnderscore [relationKey] = relationKey := rfl
  refine ⟨?_, ?_, ?_, ?_⟩
  · simp only [getColumnNameForJoinToken, hparts, hlast, hdrop, hjoin1]
    simp [List.find?, hvj, hrf]
  · simp only [getColumnNameForJoinToken, hparts, hlast, hdrop, hjoin1]
    simp only [List.find?]
    simp only [bridgeConvertJoinToken, hfk, hfkrel, hre]
    simp [hrf]
  · intro r
    exact joinMode_eq_subquery_value targetRows fkField.dbNameOr vj.relatedEntity.idDbName
      relatedField.dbNameOr hU r
  · exact joinModeSelect_eq_subquerySelect baseRows targetRows fkField.dbNameOr
      vj.relatedEntity.idDbName relatedField.dbNameOr pred hU

/-- C10: every automatic relation join is a LEFT JOIN — every clause emitted
by `processRelation` and by the `countWithJoins` loop has kind `leftJoin` —
and semantically a chain of LEFT JOINs on unique id columns keeps exactly
the driving table's rows: the joined row set projects back to the base rows,
its cardinality equals the base cardinality, and any WHERE predicate on base
columns selects the same rows as on the un-joined base table, including rows
whose foreign key matches no related row. -/
theorem left_join_preserves_base_rows (base : List DbRow) (specs : List JoinSpecSem)
    (q : DbRow → Bool) (mainTableAlias : Str) (relations : List CountJoinRelation)
    (hU : ∀ s ∈ specs, uniqueIdCol s.target s.idCol) :
    (∀ (t : RelTree) (pa pre : Str) (acc : List JoinNodeRec × List JoinClause),
      (∀ c ∈ acc.2, c.kind = JoinKind.leftJoin) →
      ∀ c ∈ (processRelation t pa pre acc).2, c.kind = JoinKind.leftJoin)
    ∧ (∀ c ∈ countWithJoinsClauses mainTableAlias relations, c.kind = JoinKind.leftJoin)
    ∧ (leftJoinChain base specs).map Prod.fst = base
    ∧ (leftJoinChain base specs).length = base.length
    ∧ ((leftJoinChain base specs).filter (fun p => q p.1)).map Prod.fst
        = base.filter q := by
  have hmap : (leftJoinChain base specs).map Prod.fst = base := by
    unfold leftJoinChain
    rw [leftJoinChain_fold_map_fst specs _ hU, List.map_map]
    exact List.map_id base
  refine ⟨?_, ?_, hmap, ?_, ?_⟩
  · intro t pa pre acc hacc c hc
    obtain ⟨n, cs, heq, hcs⟩ := processRelation_extends t pa pre acc
    rw [heq] at hc
    rcases List.mem_append.mp hc with h1 | h2
    · exact hacc c h1
    · exact hcs c h2
  · intro c hc
    obtain ⟨rel, _, heq⟩ := List.mem_map.mp hc
    rw [← heq]
  · calc (leftJoinChain base specs).length
        = ((leftJoinChain base specs).map Prod.fst).length := (List.length_map _ _).symm
      _ = base.length := by rw [hmap]
  · rw [map_fst_filter_comm, hmap]

/-- Witness for C2 at the `Order`/`Company` fixture: the token
`customer.city` resolves to `join_customer.city` in JOIN mode, and filtering
by `city = NYC` selects the same orders in both modes (including the order
whose foreign key matches no company). -/
theorem join_subquery_mode_equivalence_witness :
    getColumnNameForJoinToken Dialect.mssql orderMeta
        [⟨"customer".data, companyMeta, "join_customer".data⟩] ("main".data)
        ("customer.city".data)
      = some (colB Dialect.mssql ("join_customer".data) ("city".data))
    ∧ joinModeSelect orderRows companyRows ("customerId".data) ("id".data) ("city".data)
        (fun v => v = some ("NYC".data))
      = subquerySelect orderRows companyRows ("customerId".data) ("id".data) ("city".data)
        (fun v => v = some ("NYC".data)) := by
  have h := join_subquery_mode_equivalence Dialect.mssql orderMeta ("main".data)
    ("customer.city".data) ("customer".data) ("city".data)
    ⟨"customer".data, companyMeta, "join_customer".data⟩
    (FieldMetaM.mk ("city".data) none none)
    (FieldMetaM.mk ("customerId".data) none
      (some (RelInfoM.mk (some ("customerId".data)) companyMeta)))
    (RelInfoM.mk (some ("customerId".data)) companyMeta)
    companyRows orderRows (fun v => v = some ("NYC".data))
    (by decide) rfl rfl rfl rfl rfl (by unfold uniqueIdCol; decide)
  exact ⟨h.1, h.2.2.2⟩

/-- Witness for C10 at the `Order`/`Company` fixture, one LEFT JOIN. -/
theorem left_join_preserves_base_rows_witness :
    (leftJoinChain orderRows [⟨companyRows, "customerId".data, "id".data⟩]).map Prod.fst
      = orderRows
    ∧ (leftJoinChain orderRows [⟨companyRows, "customerId".data, "id".data⟩]).length
      = orderRows.length := by
  have h := left_join_preserves_base_rows orderRows
    [⟨companyRows, "customerId".data, "id".data⟩]
    (fun r => getColV r ("id".data) = some ("10".data)) ("main".data) []
    (by intro s hs
        rw [List.mem_singleton] at hs
        subst hs
        unfold uniqueIdCol
        decide)
  exact ⟨h.2.2.1, h.2.2.2.1⟩

end RemultOpt
